import Mathlib

/-!
Verification of the Fin → Windows Batch transpiler core (v1 surface).

This file gives a shallow embedding of the transpiler's scanner, Pratt
expression parser, statement parser, formatter, semantic analyzer and
Batch code generator, translated from the Go sources, and proves or
refutes the frozen claims about them.

Modeling conventions:
 * Go strings are modeled as Lean `String` / `List Char`; the sources
   index bytes, which coincides with characters on the ASCII inputs the
   claims exercise.
 * Source positions (line/column) are carried by every Go token and AST
   node but are never consulted by the lowered logic the claims are
   about; the embedding drops them.
 * Go's `nil` expression pointers are modeled by `Option Expr` exactly
   where the sources test for nil (echo and return payloads); the
   remaining expression fields are non-nil on every path the claims
   exercise.
 * Imperative loops and mutable cursors become fuel-indexed structural
   recursion; the fuel is always chosen large enough that it is never
   exhausted on the inputs considered.
-/

namespace FinV1

/-- Expressions of the v1 AST (package ast), as pattern-matched by the
parser, analyzer, formatter and generator. Go's `ast.Expr` is an
interface and may be nil (e.g. an echo with no argument, or a failed
sub-parse); the nil pointer is embedded as the `nilExpr` constructor. -/
inductive Expr where
  | nilExpr
  | stringLit (value : String)
  | numberLit (value : String)
  | boolLit (value : Bool)
  | identExpr (name : String)
  | listLit (elements : List Expr)
  | mapLit (pairs : List (String × Expr))
  | indexExpr (left index : Expr)
  | propertyExpr (object : Expr) (field : String)
  | binaryExpr (left : Expr) (op : String) (right : Expr)
  | unaryExpr (op : String) (right : Expr)
  | existsCond (path : Expr)
deriving Repr

/-- Statements of the v1 AST (package ast). -/
inductive Stmt where
  | setStmt (name : String) (value : Expr)
  | assignStmt (name : String) (value : Expr)
  | callStmt (name : String) (args : List Expr)
  | echoStmt (value : Expr)
  | runStmt (command : Expr)
  | ifStmt (cond : Expr) (thenB elseB : List Stmt)
  | forStmt (var : String) (start stop : Expr) (body : List Stmt)
  | whileStmt (cond : Expr) (body : List Stmt)
  | returnStmt (value : Expr)
  | breakStmt
  | continueStmt
  | fnDecl (name : String) (params : List String) (body : List Stmt)
deriving Repr

/-- A program is the list of its top-level statements (ast.Program). -/
structure Program where
  statements : List Stmt
deriving Repr

end FinV1

namespace FinV1

/-- Token kinds of the v1 token package. The constant block of that
package has no break/continue kinds; the statement parser nevertheless
references such kinds, so they are included here so that the parser can
be embedded as written (the keyword table below never produces them). -/
inductive TokType where
  | EOF | ILLEGAL | IDENT | NUMBER | STRING | NEWLINE
  | SET | ECHO | RUN | IF | ELSE | END | FOR | IN | EXISTS | FN
  | WHILE | RETURN | TRUE | FALSE | BREAK | CONTINUE
  | DOTDOT | DOT
  | LBRACKET | RBRACKET | LBRACE | RBRACE | LPAREN | RPAREN | COMMA | COLON
  | PLUS | MINUS | STAR | SLASH | BANG | POW
  | EQEQ | NOTEQ | LT | LTE | GT | GTE | AND | OR
deriving Repr, DecidableEq

/-- A scanned token: kind and literal (source positions dropped). -/
structure Token where
  type : TokType
  literal : String
deriving Repr, DecidableEq

/-- The keyword table of the v1 token package (`token.Keywords`). -/
def Keywords : List (String × TokType) :=
  [("set", .SET), ("echo", .ECHO), ("run", .RUN), ("if", .IF),
   ("else", .ELSE), ("end", .END), ("for", .FOR), ("while", .WHILE),
   ("return", .RETURN), ("true", .TRUE), ("false", .FALSE), ("in", .IN),
   ("exists", .EXISTS), ("fn", .FN)]

/-- Keyword lookup (`token.LookupIdent`): identifiers found in the table
become their keyword kind, all others stay IDENT. -/
def LookupIdent (ident : String) : TokType :=
  match Keywords.lookup ident with
  | some t => t
  | none => .IDENT

/-- Character class used by the scanner for identifier characters
(`lexer.isLetter`; unicode letters restricted to ASCII here). -/
def isLetter (c : Char) : Bool := c.isAlpha || c = '_'

/-- Decimal digit test (`lexer.isDigit`). -/
def isDigit (c : Char) : Bool := '0' ≤ c && c ≤ '9'

/-- Whitespace skipping (`lexer.skipWhitespaceExceptNewline`): spaces,
tabs and carriage returns are discarded, newlines kept. -/
def skipWhitespaceExceptNewline : List Char → List Char
  | c :: rest =>
    if c = ' ' || c = '\t' || c = '\r' then skipWhitespaceExceptNewline rest
    else c :: rest
  | [] => []

/-- Comment skipping (`lexer.skipComment`): advance to the newline or
end of input, leaving the newline unconsumed. -/
def skipComment (l : List Char) : List Char := l.dropWhile (fun c => c ≠ '\n')

/-- Identifier scan (`lexer.readIdentifier`): the maximal run of letters
and digits from the current position. Returns (literal, rest). -/
def readIdentifier (l : List Char) : String × List Char :=
  (⟨l.takeWhile (fun c => isLetter c || isDigit c)⟩,
   l.dropWhile (fun c => isLetter c || isDigit c))

/-- Number scan (`lexer.readNumber`): a maximal run of digits. -/
def readNumber (l : List Char) : String × List Char :=
  (⟨l.takeWhile isDigit⟩, l.dropWhile isDigit)

/-- String scan after the opening quote (`lexer.readString`).
`raw` accumulates the consumed characters (reversed) for the
unterminated case, `out` the decoded value. Returns
(value, ok, rest): on a closing quote the decoded value with ok=true,
at end of input the raw partial content with ok=false. -/
def readStringGo : List Char → List Char → List Char → String × Bool × List Char
  | raw, _out, [] => (⟨raw.reverse⟩, false, [])
  | raw, out, c :: rest =>
    if c = '"' then (⟨out.reverse⟩, true, rest)
    else if c = '\\' then
      match rest with
      | [] =>
        -- a trailing backslash: the Go scanner reads past the buffer;
        -- modeled as an unterminated string holding the raw content.
        (⟨(c :: raw).reverse⟩, false, [])
      | esc :: rest' =>
        let decoded := if esc = '"' then '"'
          else if esc = '\\' then '\\'
          else if esc = 'n' then '\n'
          else if esc = 't' then '\t'
          else esc
        readStringGo (esc :: c :: raw) (decoded :: out) rest'
    else readStringGo (c :: raw) (c :: out) rest

/-- One scanner step (`lexer.NextToken`): skip blanks, then dispatch on
the first character; comments recurse (bounded by fuel, which is never
exhausted when it exceeds the input length). Returns (token, rest). -/
def nextToken : Nat → List Char → Token × List Char
  | 0, input => (⟨.EOF, ""⟩, input)
  | fuel + 1, input =>
    match skipWhitespaceExceptNewline input with
    | [] => (⟨.EOF, ""⟩, [])
    | c :: rest =>
      if c = '\n' then (⟨.NEWLINE, "\n"⟩, rest)
      else if c = '#' then nextToken fuel (skipComment (c :: rest))
      else if isLetter c then
        let (lit, rest') := readIdentifier (c :: rest)
        (⟨LookupIdent lit, lit⟩, rest')
      else if isDigit c then
        let (lit, rest') := readNumber (c :: rest)
        (⟨.NUMBER, lit⟩, rest')
      else if c = '"' then
        let (str, ok, rest') := readStringGo [] [] rest
        if ok then (⟨.STRING, str⟩, rest') else (⟨.ILLEGAL, str⟩, rest')
      else if c = '.' then
        match rest with
        | '.' :: rest' => (⟨.DOTDOT, ".."⟩, rest')
        | _ => (⟨.DOT, "."⟩, rest)
      else if c = '[' then (⟨.LBRACKET, "["⟩, rest)
      else if c = ']' then (⟨.RBRACKET, "]"⟩, rest)
      else if c = '{' then (⟨.LBRACE, "\x7b"⟩, rest)
      else if c = '}' then (⟨.RBRACE, "\x7d"⟩, rest)
      else if c = '(' then (⟨.LPAREN, "("⟩, rest)
      else if c = ')' then (⟨.RPAREN, ")"⟩, rest)
      else if c = ',' then (⟨.COMMA, ","⟩, rest)
      else if c = ':' then (⟨.COLON, ":"⟩, rest)
      else if c = '$' then
        match rest with
        | d :: _ =>
          if isLetter d then
            let (lit, rest') := readIdentifier rest
            (⟨.IDENT, lit⟩, rest')
          else (⟨.ILLEGAL, "$"⟩, rest)
        | [] => (⟨.ILLEGAL, "$"⟩, rest)
      else if c = '+' then (⟨.PLUS, "+"⟩, rest)
      else if c = '-' then (⟨.MINUS, "-"⟩, rest)
      else if c = '*' then
        match rest with
        | '*' :: rest' => (⟨.POW, "**"⟩, rest')
        | _ => (⟨.STAR, "*"⟩, rest)
      else if c = '/' then (⟨.SLASH, "/"⟩, rest)
      else if c = '!' then
        match rest with
        | '=' :: rest' => (⟨.NOTEQ, "!="⟩, rest')
        | _ => (⟨.BANG, "!"⟩, rest)
      else if c = '=' then
        match rest with
        | '=' :: rest' => (⟨.EQEQ, "=="⟩, rest')
        | _ => (⟨.ILLEGAL, "="⟩, rest)
      else if c = '<' then
        match rest with
        | '=' :: rest' => (⟨.LTE, "<="⟩, rest')
        | _ => (⟨.LT, "<"⟩, rest)
      else if c = '>' then
        match rest with
        | '=' :: rest' => (⟨.GTE, ">="⟩, rest')
        | _ => (⟨.GT, ">"⟩, rest)
      else if c = '&' then
        match rest with
        | '&' :: rest' => (⟨.AND, "&&"⟩, rest')
        | _ => (⟨.ILLEGAL, "&"⟩, rest)
      else if c = '|' then
        match rest with
        | '|' :: rest' => (⟨.OR, "||"⟩, rest')
        | _ => (⟨.ILLEGAL, "|"⟩, rest)
      else (⟨.ILLEGAL, ⟨[c]⟩⟩, rest)

/-- Drain the scanner into a token list ending with the first EOF token
(`parser.CollectTokens`). -/
def collectTokens : Nat → List Char → List Token
  | 0, _ => []
  | fuel + 1, input =>
    let (tok, rest) := nextToken (input.length + 1) input
    if tok.type = .EOF then [tok] else tok :: collectTokens fuel rest

/-- Scan a whole source text (`lexer.New` plus `parser.CollectTokens`). -/
def tokenize (s : String) : List Token := collectTokens (s.data.length + 1) s.data

end FinV1

namespace FinV1

/-- Structured parse diagnostics; one constructor per `fmt.Errorf` site
of the v1 parser (parser.go, expr.go, statement parsers). -/
inductive PErr where
  | illegalToken (lit : String)
  | unexpectedToken (t : TokType)
  | noPrefixFn (t : TokType)
  | expectedRParen
  | expectedCommaOrRBracketInList
  | expectedMapKeyIdent
  | expectedColonAfterMapKey
  | expectedCommaOrRBraceInMap
  | expectedRBracketAfterIndex
  | expectedPropertyNameAfterDot
  | expectedIdentAfterSet
  | expectedStringAfterRun
  | expectedIdentAfterFor
  | expectedInAfterForVar
  | expectedDotDotInForRange
  | expectedNewlineAfterForHeader
  | expectedNewlineAfterIfCond
  | expectedNewlineAfterWhileCond
  | expectedNewlineAfterFnSignature
  | expectedEndToCloseIf
  | expectedEndToCloseFor
  | expectedEndToCloseWhile
  | expectedEndToCloseFn
  | expectedFunctionName
  | expectedExistsCondition
deriving Repr, DecidableEq

/-- Parser cursor state (struct Parser): token slice, position, and the
accumulated error list. -/
structure PState where
  tokens : List Token
  pos : Nat
  errors : List PErr
deriving Repr, DecidableEq

/-- The token under the cursor (`Parser.current`): EOF on an empty
slice, the final token when the position has run past the end. -/
def PState.current (p : PState) : Token :=
  if p.tokens.isEmpty then ⟨.EOF, ""⟩
  else if p.pos ≥ p.tokens.length then p.tokens.getLastD ⟨.EOF, ""⟩
  else p.tokens.getD p.pos ⟨.EOF, ""⟩

/-- Advance unless at EOF; returns the token that was current
(`Parser.next`). -/
def PState.next (p : PState) : Token × PState :=
  let tok := p.current
  if tok.type ≠ .EOF ∧ p.pos < p.tokens.length then
    (tok, { p with pos := p.pos + 1 })
  else (tok, p)

/-- Kind test on the current token (`Parser.check`). -/
def PState.check (p : PState) (t : TokType) : Bool := p.current.type = t

/-- End-of-stream test (`Parser.isAtEnd`). -/
def PState.isAtEnd (p : PState) : Bool := p.current.type = .EOF

/-- Conditional consumption (`Parser.expect`): consume and return the
current token when it has the requested kind. -/
def PState.expect (p : PState) (t : TokType) : Option Token × PState :=
  if p.check t then
    let (tok, p') := p.next
    (some tok, p')
  else (none, p)

/-- Append a diagnostic to the error list. -/
def PState.addErr (p : PState) (e : PErr) : PState :=
  { p with errors := p.errors ++ [e] }

/-- Skip one newline token when present
(`Parser.consumeNewlineIfPresent`). -/
def PState.consumeNewlineIfPresent (p : PState) : PState :=
  if p.check .NEWLINE then (p.next).2 else p

/-- Infix binding powers of the Pratt parser (`parser.precedences`);
kinds absent from the table have power 0. -/
def precedences (t : TokType) : Nat :=
  match t with
  | .OR => 1
  | .AND => 2
  | .EQEQ => 3 | .NOTEQ => 3
  | .LT => 4 | .LTE => 4 | .GT => 4 | .GTE => 4
  | .PLUS => 5 | .MINUS => 5
  | .STAR => 6 | .SLASH => 6
  | .DOT => 7
  | .LBRACKET => 7
  | .POW => 8
  | _ => 0

/-- Binding power of the current token (`Parser.currentPrecedence`). -/
def PState.currentPrecedence (p : PState) : Nat := precedences p.current.type

/-- Kinds having an infix parse function (`Parser.infixFn`). -/
def hasInfixFn (t : TokType) : Bool :=
  match t with
  | .PLUS | .MINUS | .STAR | .SLASH
  | .EQEQ | .NOTEQ
  | .LT | .LTE | .GT | .GTE
  | .AND | .OR
  | .POW
  | .LBRACKET | .DOT => true
  | _ => false

/-- Kinds having a prefix parse function (`Parser.prefixFn`). -/
def hasPrefixFn (t : TokType) : Bool :=
  match t with
  | .IDENT | .NUMBER | .STRING | .TRUE | .FALSE
  | .MINUS | .BANG | .LBRACKET | .LBRACE | .LPAREN => true
  | _ => false

/-- Prefix parser for identifier tokens (`parseIdent`). -/
def parseIdentFn (p : PState) : Expr × PState :=
  let (tok, p') := p.next
  (.identExpr tok.literal, p')

/-- Prefix parser for number tokens (`parseNumber`). -/
def parseNumberFn (p : PState) : Expr × PState :=
  let (tok, p') := p.next
  (.numberLit tok.literal, p')

/-- Prefix parser for string tokens (`parseString`). -/
def parseStringFn (p : PState) : Expr × PState :=
  let (tok, p') := p.next
  (.stringLit tok.literal, p')

/-- Prefix parser for boolean keyword tokens (`parseBool`). -/
def parseBoolFn (p : PState) : Expr × PState :=
  let (tok, p') := p.next
  (.boolLit (tok.type = .TRUE), p')

end FinV1

namespace FinV1

mutual

/-- Pratt expression parsing with a binding-power threshold
(`Parser.parseExpression`): run the prefix parser for the current token
(recording a diagnostic and yielding nil when there is none), then fold
infix parsers while they bind tighter than the threshold. -/
def parseExpression : Nat → Nat → PState → Expr × PState
  | 0, _, p => (.nilExpr, p)
  | fuel + 1, prec, p =>
    let t := p.current.type
    if hasPrefixFn t then
      let (left, p') :=
        match t with
        | .IDENT => parseIdentFn p
        | .NUMBER => parseNumberFn p
        | .STRING => parseStringFn p
        | .TRUE | .FALSE => parseBoolFn p
        | .MINUS | .BANG => parseUnaryFn fuel p
        | .LBRACKET => parseListFn fuel p
        | .LBRACE => parseMapFn fuel p
        | _ => parseGroupedFn fuel p
      parseInfixLoop fuel prec left p'
    else (.nilExpr, p.addErr (.noPrefixFn t))

/-- The infix loop inside `parseExpression`: stop at end of stream, at a
token whose binding power does not exceed the threshold, or at a token
without an infix parser. -/
def parseInfixLoop : Nat → Nat → Expr → PState → Expr × PState
  | 0, _, left, p => (left, p)
  | fuel + 1, prec, left, p =>
    if p.isAtEnd then (left, p)
    else
      let currPrec := p.currentPrecedence
      if prec ≥ currPrec then (left, p)
      else if hasInfixFn p.current.type then
        let (left', p') :=
          match p.current.type with
          | .LBRACKET => parseIndexFn fuel left p
          | .DOT => parsePropertyFn left p
          | _ => parseBinaryFn fuel left p
        parseInfixLoop fuel prec left' p'
      else (left, p)

/-- Prefix parser for unary minus and bang (`parseUnary`); the operand
is parsed at the fixed prefix precedence 7. -/
def parseUnaryFn : Nat → PState → Expr × PState
  | 0, p => (.nilExpr, p)
  | fuel + 1, p =>
    let (tok, p') := p.next
    let (right, p'') := parseExpression fuel 7 p'
    (.unaryExpr tok.literal right, p'')

/-- Prefix parser for parenthesized groups (`parseGrouped`). -/
def parseGroupedFn : Nat → PState → Expr × PState
  | 0, p => (.nilExpr, p)
  | fuel + 1, p =>
    let (_, p₁) := p.next
    let (expr, p₂) := parseExpression fuel 0 p₁
    if ¬ p₂.check .RPAREN then (expr, p₂.addErr .expectedRParen)
    else (expr, (p₂.next).2)

/-- Prefix parser for list literals (`parseList`). -/
def parseListFn : Nat → PState → Expr × PState
  | 0, p => (.nilExpr, p)
  | fuel + 1, p =>
    let (_, p₁) := p.next
    if p₁.check .RBRACKET then (.listLit [], (p₁.next).2)
    else
      let (elems, p₂) := parseListLoop fuel [] p₁
      (.listLit elems, p₂)

/-- Element loop of `parseList`: parse an element, then branch on
a closing bracket, a comma, or an error. -/
def parseListLoop : Nat → List Expr → PState → List Expr × PState
  | 0, acc, p => (acc, p)
  | fuel + 1, acc, p =>
    let (elem, p₁) := parseExpression fuel 0 p
    let acc' := acc ++ [elem]
    if p₁.check .RBRACKET then (acc', (p₁.next).2)
    else if p₁.check .COMMA then parseListLoop fuel acc' (p₁.next).2
    else (acc', p₁.addErr .expectedCommaOrRBracketInList)

/-- Prefix parser for map literals (`parseMap`). -/
def parseMapFn : Nat → PState → Expr × PState
  | 0, p => (.nilExpr, p)
  | fuel + 1, p =>
    let (_, p₁) := p.next
    if p₁.check .RBRACE then (.mapLit [], (p₁.next).2)
    else
      let (pairs, p₂) := parseMapLoop fuel [] p₁
      (.mapLit pairs, p₂)

/-- Entry loop of `parseMap`: each entry is IDENT ':' expression,
entries separated by commas and closed by a brace. -/
def parseMapLoop : Nat → List (String × Expr) → PState → List (String × Expr) × PState
  | 0, acc, p => (acc, p)
  | fuel + 1, acc, p =>
    if ¬ p.check .IDENT then (acc, p.addErr .expectedMapKeyIdent)
    else
      let (keyTok, p₁) := p.next
      if ¬ p₁.check .COLON then (acc, p₁.addErr .expectedColonAfterMapKey)
      else
        let (_, p₂) := p₁.next
        let (val, p₃) := parseExpression fuel 0 p₂
        let acc' := acc ++ [(keyTok.literal, val)]
        if p₃.check .RBRACE then (acc', (p₃.next).2)
        else if p₃.check .COMMA then parseMapLoop fuel acc' (p₃.next).2
        else (acc', p₃.addErr .expectedCommaOrRBraceInMap)

/-- Infix parser for indexing (`parseIndex`). -/
def parseIndexFn : Nat → Expr → PState → Expr × PState
  | 0, _, p => (.nilExpr, p)
  | fuel + 1, left, p =>
    let (_, p₁) := p.next
    let (index, p₂) := parseExpression fuel 0 p₁
    let p₃ := if ¬ p₂.check .RBRACKET then p₂.addErr .expectedRBracketAfterIndex
              else (p₂.next).2
    (.indexExpr left index, p₃)

/-- Infix parser for property access (`parseProperty`); when no
identifier follows the dot, the dot is left consumed and the left
operand is returned unchanged. -/
def parsePropertyFn (left : Expr) (p : PState) : Expr × PState :=
  let (_, p₁) := p.next
  if ¬ p₁.check .IDENT then (left, p₁.addErr .expectedPropertyNameAfterDot)
  else
    let (nameTok, p₂) := p₁.next
    (.propertyExpr left nameTok.literal, p₂)

/-- Infix parser for binary operators (`parseBinary`): the right operand
is parsed at the operator's precedence, lowered by one for the
right-associative `**`. -/
def parseBinaryFn : Nat → Expr → PState → Expr × PState
  | 0, _, p => (.nilExpr, p)
  | fuel + 1, left, p =>
    let opTok := p.current
    let opPrec := p.currentPrecedence
    let (_, p₁) := p.next
    let nextPrec := if opTok.type = .POW then opPrec - 1 else opPrec
    let (right, p₂) := parseExpression fuel nextPrec p₁
    (.binaryExpr left opTok.literal right, p₂)

end

end FinV1

namespace FinV1

/-- Error recovery (`Parser.synchronize`): skip tokens up to and
including the next newline. -/
def synchronize : Nat → PState → PState
  | 0, p => p
  | fuel + 1, p =>
    if p.isAtEnd then p
    else if p.check .NEWLINE then (p.next).2
    else synchronize fuel (p.next).2

/-- Set statement (`parseSet`): `set IDENT expression`. -/
def parseSetStmt (fuel : Nat) (p : PState) : Option Stmt × PState :=
  let (_, p₁) := p.next
  match p₁.expect .IDENT with
  | (none, p₂) => (none, p₂.addErr .expectedIdentAfterSet)
  | (some nameTok, p₂) =>
    let (val, p₃) := parseExpression fuel 0 p₂
    (some (.setStmt nameTok.literal val), p₃.consumeNewlineIfPresent)

/-- Echo statement (`parseEcho`): an optional argument expression. -/
def parseEchoStmt (fuel : Nat) (p : PState) : Option Stmt × PState :=
  let (_, p₁) := p.next
  let (val, p₂) :=
    if ¬ p₁.check .NEWLINE ∧ ¬ p₁.isAtEnd then parseExpression fuel 0 p₁
    else (.nilExpr, p₁)
  (some (.echoStmt val), p₂.consumeNewlineIfPresent)

/-- Run statement (`parseRun`): requires a string literal command. -/
def parseRunStmt (p : PState) : Option Stmt × PState :=
  let (_, p₁) := p.next
  match p₁.expect .STRING with
  | (none, p₂) => (none, p₂.addErr .expectedStringAfterRun)
  | (some cmdTok, p₂) =>
    (some (.runStmt (.stringLit cmdTok.literal)), p₂.consumeNewlineIfPresent)

/-- Return statement (`parseReturn`): optional value expression. -/
def parseReturnStmt (fuel : Nat) (p : PState) : Option Stmt × PState :=
  let (_, p₁) := p.next
  let (val, p₂) :=
    if ¬ p₁.check .NEWLINE ∧ ¬ p₁.isAtEnd then parseExpression fuel 0 p₁
    else (.nilExpr, p₁)
  (some (.returnStmt val), p₂.consumeNewlineIfPresent)

/-- Argument loop of `parseCall`. -/
def parseCallArgs : Nat → List Expr → PState → List Expr × PState
  | 0, acc, p => (acc, p)
  | fuel + 1, acc, p =>
    if ¬ p.check .NEWLINE ∧ ¬ p.isAtEnd then
      let (arg, p₁) := parseExpression fuel 0 p
      let acc' := acc ++ [arg]
      if p₁.check .NEWLINE then (acc', p₁)
      else parseCallArgs fuel acc' p₁
    else (acc, p)

/-- Call statement (`parseCall`): `IDENT expression*` up to the
newline. -/
def parseCallStmt (fuel : Nat) (p : PState) : Option Stmt × PState :=
  let (nameTok, p₁) := p.next
  let (args, p₂) := parseCallArgs fuel [] p₁
  (some (.callStmt nameTok.literal args), p₂.consumeNewlineIfPresent)

/-- Condition parser (`parseCondition`): the v1 statement parser accepts
only an exists-condition here. -/
def parseConditionFn (fuel : Nat) (p : PState) : Expr × PState :=
  if ¬ p.check .EXISTS then (.nilExpr, p.addErr .expectedExistsCondition)
  else
    let (_, p₁) := p.next
    let (path, p₂) := parseExpression fuel 0 p₁
    (.existsCond path, p₂)

/-- Parameter loop of `parseFn`: consume identifiers while present. -/
def parseFnParams : Nat → List String → PState → List String × PState
  | 0, acc, p => (acc, p)
  | fuel + 1, acc, p =>
    if p.check .IDENT then
      let (tok, p₁) := p.next
      parseFnParams fuel (acc ++ [tok.literal]) p₁
    else (acc, p)

/-- Break statement (`parseBreak`). -/
def parseBreakStmt (p : PState) : Option Stmt × PState :=
  let (_, p₁) := p.next
  (some .breakStmt, p₁.consumeNewlineIfPresent)

/-- Continue statement (`parseContinue`). -/
def parseContinueStmt (p : PState) : Option Stmt × PState :=
  let (_, p₁) := p.next
  (some .continueStmt, p₁.consumeNewlineIfPresent)

mutual

/-- Statement dispatch (`Parser.parseStatement`): route on the current
token's kind; illegal and unknown kinds record a diagnostic, consume one
token and yield no statement. -/
def parseStatement : Nat → PState → Option Stmt × PState
  | 0, p => (none, p)
  | fuel + 1, p =>
    let tok := p.current
    if tok.type = .EOF then (none, p)
    else if tok.type = .ILLEGAL then
      (none, ((p.addErr (.illegalToken tok.literal)).next).2)
    else
      match tok.type with
      | .SET => parseSetStmt fuel p
      | .ECHO => parseEchoStmt fuel p
      | .RUN => parseRunStmt p
      | .RETURN => parseReturnStmt fuel p
      | .IF => parseIfStmt fuel p
      | .FOR => parseForStmt fuel p
      | .WHILE => parseWhileStmt fuel p
      | .FN => parseFnStmt fuel p
      | .BREAK => parseBreakStmt p
      | .CONTINUE => parseContinueStmt p
      | .IDENT => parseCallStmt fuel p
      | t => (none, ((p.addErr (.unexpectedToken t)).next).2)

/-- If statement (`parseIf`): condition, then-block up to else/end, an
optional else-block, and the closing end. -/
def parseIfStmt : Nat → PState → Option Stmt × PState
  | 0, p => (none, p)
  | fuel + 1, p =>
    let (_, p₁) := p.next
    let (cond, p₂) := parseConditionFn fuel p₁
    let p₃ := if ¬ p₂.check .NEWLINE then p₂.addErr .expectedNewlineAfterIfCond else p₂
    let p₄ := p₃.consumeNewlineIfPresent
    let (thenB, p₅) := parseBlock fuel [.ELSE, .END] [] p₄
    let (elseB, p₆) :=
      if p₅.check .ELSE then
        parseBlock fuel [.END] [] ((p₅.next).2.consumeNewlineIfPresent)
      else ([], p₅)
    let p₇ := if ¬ p₆.check .END then p₆.addErr .expectedEndToCloseIf else (p₆.next).2
    (some (.ifStmt cond thenB elseB), p₇.consumeNewlineIfPresent)

/-- For statement (`parseFor`): `for IDENT in expr .. expr` then a block
closed by end. -/
def parseForStmt : Nat → PState → Option Stmt × PState
  | 0, p => (none, p)
  | fuel + 1, p =>
    let (_, p₁) := p.next
    match p₁.expect .IDENT with
    | (none, p₂) => (none, p₂.addErr .expectedIdentAfterFor)
    | (some iterTok, p₂) =>
      if ¬ p₂.check .IN then (none, p₂.addErr .expectedInAfterForVar)
      else
        let (_, p₃) := p₂.next
        let (start, p₄) := parseExpression fuel 0 p₃
        if ¬ p₄.check .DOTDOT then (none, p₄.addErr .expectedDotDotInForRange)
        else
          let (_, p₅) := p₄.next
          let (stop, p₆) := parseExpression fuel 0 p₅
          let p₇ := if ¬ p₆.check .NEWLINE then p₆.addErr .expectedNewlineAfterForHeader else p₆
          let p₈ := p₇.consumeNewlineIfPresent
          let (body, p₉) := parseBlock fuel [.END] [] p₈
          let p₁₀ := if ¬ p₉.check .END then p₉.addErr .expectedEndToCloseFor else (p₉.next).2
          (some (.forStmt iterTok.literal start stop body), p₁₀.consumeNewlineIfPresent)

/-- While statement (`parseWhile`): a general expression condition and a
block closed by end. -/
def parseWhileStmt : Nat → PState → Option Stmt × PState
  | 0, p => (none, p)
  | fuel + 1, p =>
    let (_, p₁) := p.next
    let (cond, p₂) := parseExpression fuel 0 p₁
    let p₃ := if ¬ p₂.check .NEWLINE then p₂.addErr .expectedNewlineAfterWhileCond else p₂
    let p₄ := p₃.consumeNewlineIfPresent
    let (body, p₅) := parseBlock fuel [.END] [] p₄
    let p₆ := if ¬ p₅.check .END then p₅.addErr .expectedEndToCloseWhile else (p₅.next).2
    (some (.whileStmt cond body), p₆.consumeNewlineIfPresent)

/-- Function declaration (`parseFn`): name, parameter identifiers to end
of line, then a block closed by end. -/
def parseFnStmt : Nat → PState → Option Stmt × PState
  | 0, p => (none, p)
  | fuel + 1, p =>
    let (_, p₁) := p.next
    match p₁.expect .IDENT with
    | (none, p₂) => (none, p₂.addErr .expectedFunctionName)
    | (some nameTok, p₂) =>
      let (params, p₃) := parseFnParams fuel [] p₂
      let p₄ := if ¬ p₃.check .NEWLINE then p₃.addErr .expectedNewlineAfterFnSignature else p₃
      let p₅ := p₄.consumeNewlineIfPresent
      let (body, p₆) := parseBlock fuel [.END] [] p₅
      let p₇ := if ¬ p₆.check .END then p₆.addErr .expectedEndToCloseFn else (p₆.next).2
      (some (.fnDecl nameTok.literal params body), p₇.consumeNewlineIfPresent)

/-- Block parsing (`parseBlock`): collect statements until end of stream
or one of the terminator kinds, skipping newlines and synchronizing on
failed statements. -/
def parseBlock : Nat → List TokType → List Stmt → PState → List Stmt × PState
  | 0, _, acc, p => (acc, p)
  | fuel + 1, terms, acc, p =>
    if p.isAtEnd then (acc, p)
    else if p.check .NEWLINE then parseBlock fuel terms acc (p.next).2
    else if terms.any (fun t => p.check t) then (acc, p)
    else
      match parseStatement fuel p with
      | (some s, p₁) => parseBlock fuel terms (acc ++ [s]) p₁
      | (none, p₁) => parseBlock fuel terms acc (synchronize (p₁.tokens.length + 1) p₁)

end

/-- Top-level parse loop (`Parser.ParseProgram`): skip newlines, parse
statements, synchronize after failures, stop at EOF. -/
def parseProgramLoop : Nat → List Stmt → PState → List Stmt × PState
  | 0, acc, p => (acc, p)
  | fuel + 1, acc, p =>
    if p.isAtEnd then (acc, p)
    else if p.check .NEWLINE then parseProgramLoop fuel acc (p.next).2
    else
      match parseStatement fuel p with
      | (some s, p₁) => parseProgramLoop fuel (acc ++ [s]) p₁
      | (none, p₁) => parseProgramLoop fuel acc (synchronize (p₁.tokens.length + 1) p₁)

/-- Parse a token list into a program plus the accumulated diagnostics
(`parser.New` + `ParseProgram` + `Errors`); the fuel is proportional to
the token count and never runs out on the inputs considered. -/
def parseTokens (toks : List Token) : Program × List PErr :=
  let fuel := toks.length * 20 + 50
  let (stmts, p) := parseProgramLoop fuel [] ⟨toks, 0, []⟩
  (⟨stmts⟩, p.errors)

/-- Parse an expression from a token list at threshold 0 (the Pratt
entry point used by every statement parser). -/
def parseExprToks (toks : List Token) : Expr :=
  (parseExpression (toks.length * 20 + 50) 0 ⟨toks, 0, []⟩).1

end FinV1

namespace FinV1

mutual

/-- Expression formatting (`format.formatExpr`): canonical source text
for one expression; the nil expression prints as the empty string. -/
def formatExpr : Expr → String
  | .nilExpr => ""
  | .stringLit v => v
  | .numberLit v => v
  | .boolLit b => if b then "true" else "false"
  | .identExpr name => "$" ++ name
  | .listLit els => "[" ++ String.intercalate ", " (formatExprList els) ++ "]"
  | .mapLit prs => "\x7b" ++ String.intercalate ", " (formatPairList prs) ++ "\x7d"
  | .indexExpr l i => formatExpr l ++ "[" ++ formatExpr i ++ "]"
  | .propertyExpr o f => formatExpr o ++ "." ++ f
  | .unaryExpr op r => op ++ formatExpr r
  | .binaryExpr l op r => "(" ++ formatExpr l ++ " " ++ op ++ " " ++ formatExpr r ++ ")"
  | .existsCond path => "exists " ++ formatExpr path

/-- The element parts of a formatted list literal. -/
def formatExprList : List Expr → List String
  | [] => []
  | e :: rest => formatExpr e :: formatExprList rest

/-- The `key: value` parts of a formatted map literal. -/
def formatPairList : List (String × Expr) → List String
  | [] => []
  | (k, v) :: rest => (k ++ ": " ++ formatExpr v) :: formatPairList rest

end

/-- Indentation prefix used by the formatter: four spaces per level. -/
def indStr (indent : Nat) : String := String.join (List.replicate indent "    ")

mutual

/-- Statement formatting (`format.writeStmt`): the statement's canonical
text at the given indentation, without a trailing newline. -/
def writeStmt (indent : Nat) : Stmt → String
  | .setStmt name v => indStr indent ++ "set " ++ name ++ " " ++ formatExpr v
  | .echoStmt v => indStr indent ++ "echo " ++ formatExpr v
  | .runStmt cmd => indStr indent ++ "run " ++ formatExpr cmd
  | .callStmt name args =>
    indStr indent ++ name ++ String.join (writeCallArgs args)
  | .returnStmt v =>
    match v with
    | .nilExpr => indStr indent ++ "return"
    | v => indStr indent ++ "return " ++ formatExpr v
  | .ifStmt cond thenB elseB =>
    indStr indent ++ "if " ++ formatExpr cond ++ "\n" ++
    writeBlock (indent + 1) thenB ++
    (if elseB.length > 0 then
      indStr indent ++ "else\n" ++ writeBlock (indent + 1) elseB
     else "") ++
    indStr indent ++ "end"
  | .forStmt var start stop body =>
    indStr indent ++ "for " ++ var ++ " in " ++ formatExpr start ++ " .. " ++
    formatExpr stop ++ "\n" ++ writeBlock (indent + 1) body ++ indStr indent ++ "end"
  | .whileStmt cond body =>
    indStr indent ++ "while " ++ formatExpr cond ++ "\n" ++
    writeBlock (indent + 1) body ++ indStr indent ++ "end"
  | .fnDecl name params body =>
    indStr indent ++ "fn " ++ name ++
    String.join (params.map (fun q => " " ++ q)) ++ "\n" ++
    writeBlock (indent + 1) body ++ indStr indent ++ "end"
  | .assignStmt name v =>
    -- ast.AssignStmt has no case in writeStmt; the default arm prints a
    -- placeholder comment. Only the leading indent matters to claims.
    indStr indent ++ "# unsupported stmt " ++ name ++ " " ++ formatExpr v
  | .breakStmt => indStr indent ++ "# unsupported stmt break"
  | .continueStmt => indStr indent ++ "# unsupported stmt continue"

/-- Inner statements of a block, each followed by one newline. -/
def writeBlock (indent : Nat) : List Stmt → String
  | [] => ""
  | s :: rest => writeStmt indent s ++ "\n" ++ writeBlock indent rest

/-- Call argument rendering inside `writeStmt`. -/
def writeCallArgs : List Expr → List String
  | [] => []
  | a :: rest => (" " ++ formatExpr a) :: writeCallArgs rest

end

/-- Is this statement a function declaration (`format.isFnDecl`)? -/
def isFnDecl : Stmt → Bool
  | .fnDecl .. => true
  | _ => false

/-- Separator-inserting fold of `format.Format`: one newline between
statements, a blank line between two adjacent function declarations. -/
def formatStmts : Option Stmt → List Stmt → String
  | _, [] => ""
  | prev, s :: rest =>
    let sep :=
      match prev with
      | none => ""
      | some q => if isFnDecl q ∧ isFnDecl s then "\n\n" else "\n"
    sep ++ writeStmt 0 s ++ formatStmts (some s) rest

/-- Program formatting (`format.Format`). -/
def Format (prog : Program) : String := formatStmts none prog.statements

/-- The format operation of the pipeline: scan, parse, format
(`fin fmt` without the write-back). -/
def formatParse (s : String) : String := Format (parseTokens (tokenize s)).1

/-- The parse diagnostics the parser reports for a source text. -/
def parseErrorsOf (s : String) : List PErr := (parseTokens (tokenize s)).2

end FinV1

namespace FinV1

/-- Structured semantic diagnostics (sema/errors.go), positions
dropped. -/
inductive SemaError where
  | undefinedVariable (name : String)
  | duplicateFunction (name : String)
  | invalidArity (name : String) (expected got : Nat)
  | reservedName (name : String)
  | shadowing (name : String)
deriving Repr, DecidableEq

/-- Reserved-name test (`sema.IsReserved`): membership in the keyword
table of the token package. -/
def IsReserved (name : String) : Bool := (Keywords.lookup name).isSome

/-- Identifier validation (`sema.ValidateIdentifier`): reserved names
produce a ReservedNameError. -/
def ValidateIdentifier (name : String) : Option SemaError :=
  if IsReserved name then some (.reservedName name) else none

/-- A scope chain (sema.Scope): head is the current scope's name set,
tail the chain of parents; the module scope is the last frame. -/
abbrev ScopeChain := List (List String)

/-- Name resolution over the chain (`Scope.Lookup`). -/
def scopeLookup (s : ScopeChain) (name : String) : Bool :=
  s.any (fun fr => fr.contains name)

/-- Definition into the current scope (`Scope.Define`): an occurrence of
the name in the current or any ancestor frame is a ShadowingError and
nothing is inserted. -/
def scopeDefine (s : ScopeChain) (name : String) : Option SemaError × ScopeChain :=
  if scopeLookup s name then (some (.shadowing name), s)
  else
    match s with
    | [] => (none, s)  -- unreachable: chains in use are never empty
    | fr :: rest => (none, (name :: fr) :: rest)

/-- The analyzer's function registry (sema.FunctionRegistry): a map from
function name to arity, insertion order kept. -/
abbrev Registry := List (String × Nat)

/-- Registry insert (`FunctionRegistry.Define`): duplicates are a
DuplicateFunctionError. -/
def regDefine (r : Registry) (name : String) (arity : Nat) : Option SemaError × Registry :=
  if (r.lookup name).isSome then (some (.duplicateFunction name), r)
  else (none, r ++ [(name, arity)])

/-- Registry lookup (`FunctionRegistry.Lookup`). -/
def regLookup (r : Registry) (name : String) : Option Nat := r.lookup name

mutual

/-- Expression traversal of pass 2 (`sema.analyzeExpr`): resolve
identifiers (reserved words are literals and skipped), recurse
elsewhere; literals and the nil expression produce nothing. -/
def analyzeExpr (scope : ScopeChain) : Expr → List SemaError
  | .identExpr name =>
    if IsReserved name then []
    else if scopeLookup scope name then [] else [.undefinedVariable name]
  | .indexExpr l i => analyzeExpr scope l ++ analyzeExpr scope i
  | .propertyExpr o _ => analyzeExpr scope o
  | .binaryExpr l _ r => analyzeExpr scope l ++ analyzeExpr scope r
  | .unaryExpr _ r => analyzeExpr scope r
  | .listLit els => analyzeExprList scope els
  | .mapLit prs => analyzePairList scope prs
  | .existsCond p => analyzeExpr scope p
  | _ => []

/-- Element traversal for list literals. -/
def analyzeExprList (scope : ScopeChain) : List Expr → List SemaError
  | [] => []
  | e :: rest => analyzeExpr scope e ++ analyzeExprList scope rest

/-- Value traversal for map literals (keys are not resolved). -/
def analyzePairList (scope : ScopeChain) : List (String × Expr) → List SemaError
  | [] => []
  | (_, v) :: rest => analyzeExpr scope v ++ analyzePairList scope rest

end

/-- Parameter registration inside a function scope (the parameter loop
of `sema.analyzeStmt`'s FnDecl case): validate then define each
parameter in order. -/
def defineParams (scope : ScopeChain) : List String → ScopeChain × List SemaError
  | [] => (scope, [])
  | q :: rest =>
    let e1 := (ValidateIdentifier q).toList
    let (e2, scope') := scopeDefine scope q
    let (scope'', e3) := defineParams scope' rest
    (scope'', e1 ++ e2.toList ++ e3)

mutual

/-- Statement traversal of pass 2 (`sema.analyzeStmt`): returns the
updated current chain (Set defines into the current frame) and the
diagnostics in emission order. Return, break and continue have no
contextual checks in this analyzer. -/
def analyzeStmt (reg : Registry) (scope : ScopeChain) : Stmt → ScopeChain × List SemaError
  | .setStmt name v =>
    let e1 := (ValidateIdentifier name).toList
    let (e2, scope') := scopeDefine scope name
    (scope', e1 ++ e2.toList ++ analyzeExpr scope' v)
  | .fnDecl _ params body =>
    let (fnScope, eps) := defineParams ([] :: scope) params
    let (_, ebody) := analyzeStmts reg fnScope body
    (scope, eps ++ ebody)
  | .ifStmt cond thenB elseB =>
    let ec := analyzeExpr scope cond
    let (_, et) := analyzeStmts reg ([] :: scope) thenB
    let ee := if elseB.length > 0 then (analyzeStmts reg ([] :: scope) elseB).2 else []
    (scope, ec ++ et ++ ee)
  | .forStmt var start stop body =>
    let e1 := (ValidateIdentifier var).toList
    let (e2, loopScope) := scopeDefine ([] :: scope) var
    let es := analyzeExpr scope start
    let ee := analyzeExpr scope stop
    let (_, eb) := analyzeStmts reg loopScope body
    (scope, e1 ++ e2.toList ++ es ++ ee ++ eb)
  | .whileStmt cond body =>
    let ec := analyzeExpr scope cond
    let (_, eb) := analyzeStmts reg ([] :: scope) body
    (scope, ec ++ eb)
  | .callStmt name args =>
    let ecall :=
      match regLookup reg name with
      | none => [SemaError.undefinedVariable name]
      | some arity => if arity ≠ args.length then [.invalidArity name arity args.length] else []
    (scope, ecall ++ analyzeExprList scope args)
  | .echoStmt v => (scope, analyzeExpr scope v)
  | .runStmt cmd => (scope, analyzeExpr scope cmd)
  | .returnStmt v => (scope, analyzeExpr scope v)
  | .breakStmt => (scope, [])
  | .continueStmt => (scope, [])
  | .assignStmt _ _ => (scope, [])

/-- Sequential traversal of a block, threading the current chain. -/
def analyzeStmts (reg : Registry) (scope : ScopeChain) : List Stmt → ScopeChain × List SemaError
  | [] => (scope, [])
  | s :: rest =>
    let (scope', e1) := analyzeStmt reg scope s
    let (scope'', e2) := analyzeStmts reg scope' rest
    (scope'', e1 ++ e2)

end

/-- Pass 1 (`sema.AnalyzeDefinitions`, registration loop): for each
top-level function declaration, validate the name, define it in the
module scope, and register its arity. -/
def registerFns (global : ScopeChain) (reg : Registry) :
    List Stmt → ScopeChain × Registry × List SemaError
  | [] => (global, reg, [])
  | .fnDecl name params _ :: rest =>
    let e1 := (ValidateIdentifier name).toList
    let (e2, global') := scopeDefine global name
    let (e3, reg') := regDefine reg name params.length
    let (g, r, e4) := registerFns global' reg' rest
    (g, r, e1 ++ e2.toList ++ e3.toList ++ e4)
  | _ :: rest => registerFns global reg rest

/-- Two-pass semantic analysis (`sema.AnalyzeDefinitions`): register all
top-level functions, then walk every statement from the module scope;
the result is the diagnostic list in emission order. -/
def AnalyzeDefinitions (prog : Program) : List SemaError :=
  let (global, reg, e1) := registerFns [[]] [] prog.statements
  let (_, e2) := analyzeStmts reg global prog.statements
  e1 ++ e2

/-- Error-only entry point (`sema.Analyze`). -/
def Analyze (prog : Program) : List SemaError := AnalyzeDefinitions prog

end FinV1

namespace FinV1

/-- Return frame of the generator context (generator.returnTarget). -/
structure ReturnTarget where
  label : String
  tempVar : String
  outVar : String
deriving Repr, DecidableEq

/-- Break/continue targets of the current loop (generator.loopLabels). -/
structure LoopLabels where
  breakLabel : String
  continueLabel : String
deriving Repr, DecidableEq

/-- Generator state (generator.Context): label counter, indentation,
output lines, loop stack and return stack. -/
structure GenContext where
  labelCounter : Nat
  indent : Nat
  out : List String
  loopStack : List LoopLabels
  returnStack : List ReturnTarget
deriving Repr, DecidableEq

/-- Fresh generator context (`generator.NewContext`). -/
def NewContext : GenContext := ⟨0, 0, [], [], []⟩

/-- Write one line at the current indentation (`Context.emitLine`). -/
def GenContext.emitLine (c : GenContext) (s : String) : GenContext :=
  { c with out := c.out ++ [indStr c.indent ++ s] }

/-- Write one unindented line (`Context.emitRawLine`). -/
def GenContext.emitRawLine (c : GenContext) (s : String) : GenContext :=
  { c with out := c.out ++ [s] }

/-- Allocate the next label id (`Context.NextLabel`). -/
def GenContext.nextLabel (c : GenContext) : Nat × GenContext :=
  (c.labelCounter + 1, { c with labelCounter := c.labelCounter + 1 })

/-- Raise the indentation level (`Context.pushIndent`). -/
def GenContext.pushIndent (c : GenContext) : GenContext :=
  { c with indent := c.indent + 1 }

/-- Lower the indentation level, no-op at zero (`Context.popIndent`). -/
def GenContext.popIndent (c : GenContext) : GenContext :=
  { c with indent := c.indent - 1 }

/-- Push loop labels (`Context.pushLoop`). -/
def GenContext.pushLoop (c : GenContext) (breakLabel continueLabel : String) : GenContext :=
  { c with loopStack := c.loopStack ++ [⟨breakLabel, continueLabel⟩] }

/-- Pop the innermost loop labels (`Context.popLoop`). -/
def GenContext.popLoop (c : GenContext) : GenContext :=
  { c with loopStack := c.loopStack.dropLast }

/-- The innermost loop labels, when inside a loop
(`Context.currentLoop`). -/
def GenContext.currentLoop (c : GenContext) : Option LoopLabels :=
  c.loopStack.getLast?

/-- Push a return frame (`Context.pushReturn`). -/
def GenContext.pushReturn (c : GenContext) (label tempVar outVar : String) : GenContext :=
  { c with returnStack := c.returnStack ++ [⟨label, tempVar, outVar⟩] }

/-- Pop the innermost return frame (`Context.popReturn`). -/
def GenContext.popReturn (c : GenContext) : GenContext :=
  { c with returnStack := c.returnStack.dropLast }

/-- The innermost return frame, when inside a function body
(`Context.currentReturn`). -/
def GenContext.currentReturn (c : GenContext) : Option ReturnTarget :=
  c.returnStack.getLast?

/-- The accumulated output text (`Context.String`). -/
def GenContext.render (c : GenContext) : String :=
  String.join (c.out.map (fun line => line ++ "\n"))

/-- Label for the top of a while loop (`generator.whileStartLabel`). -/
def whileStartLabel (id : Nat) : String := "while_start_" ++ toString id

/-- Label after a while loop (`generator.whileEndLabel`). -/
def whileEndLabel (id : Nat) : String := "while_end_" ++ toString id

/-- Continue label of a for loop (`generator.loopContinueLabel`). -/
def loopContinueLabel (id : Nat) : String := "loop_continue_" ++ toString id

/-- Break label of a for loop (`generator.loopBreakLabel`). -/
def loopBreakLabel (id : Nat) : String := "loop_break_" ++ toString id

/-- Return label of a function (`generator.fnReturnLabel`). -/
def fnReturnLabel (name : String) : String := "fn_ret_" ++ name

/-- Deterministic function label mangling (`generator.mangleFunc`). -/
def mangleFunc (name : String) : String := "fn_" ++ name

/-- Deterministic temporary name mangling (`generator.mangleTemp`). -/
def mangleTemp (p : String) (id : Nat) : String := p ++ "_tmp_" ++ toString id

/-- Generator failures (generator.GeneratorError). The snapshot shows
only the construction sites `errUnsupportedStmt` / `errFunctionNotLifted`;
the payload here is reduced to the distinguishing data. -/
inductive GenError where
  | unsupportedStmt
  | functionNotLifted (name : String)
deriving Repr, DecidableEq

/-- Identifier start class of the string interpolator
(`generator.isIdentStart`). -/
def isIdentStart (c : Char) : Bool :=
  ('A' ≤ c && c ≤ 'Z') || ('a' ≤ c && c ≤ 'z') || c = '_'

/-- Identifier continuation class (`generator.isIdentPart`). -/
def isIdentPart (c : Char) : Bool := isIdentStart c || ('0' ≤ c && c ≤ '9')

/-- Character loop of `generator.interpolateString`: `$$` becomes `$`,
`$` followed by an identifier start replaces the maximal identifier run
by `%IDENT%`, any other character is copied. Every step consumes at
least one character, so fuel above the input length is never
exhausted. -/
def interpChars : Nat → List Char → List Char
  | 0, _ => []
  | _ + 1, [] => []
  | fuel + 1, '$' :: rest =>
    match rest with
    | '$' :: rest' => '$' :: interpChars fuel rest'
    | c :: rest' =>
      if isIdentStart c then
        ('%' :: c :: rest'.takeWhile isIdentPart) ++
          ('%' :: interpChars fuel (rest'.dropWhile isIdentPart))
      else '$' :: interpChars fuel (c :: rest')
    | [] => ['$']
  | fuel + 1, c :: rest => c :: interpChars fuel rest

/-- String interpolation of the generator
(`generator.interpolateString`). -/
def interpolateString (s : String) : String :=
  ⟨interpChars (s.data.length + 1) s.data⟩

/-- Strip one pair of surrounding `%` or `!` markers
(`generator.trimPercents`). -/
def trimPercents (s : String) : String :=
  let l := s.data
  if l.length ≥ 2 then
    if (l.headD ' ' = '%' ∧ l.getLastD ' ' = '%') ∨
       (l.headD ' ' = '!' ∧ l.getLastD ' ' = '!') then ⟨(l.drop 1).dropLast⟩
    else s
  else s

mutual

/-- Expression lowering with the arithmetic-context flag
(`generator.lowerExprWithContext`): maps AST nodes to batch syntax with
no evaluation. -/
def lowerExprWithContext : Expr → Bool → String
  | .stringLit v, _ => interpolateString v
  | .numberLit v, _ => v
  | .boolLit b, _ => if b then "true" else "false"
  | .identExpr name, arithmetic =>
    if arithmetic then name else "!" ++ name ++ "!"
  | .propertyExpr obj field, arithmetic =>
    let base := trimPercents (lowerExprWithContext obj arithmetic)
    if arithmetic then base ++ "_" ++ field
    else "!" ++ base ++ "_" ++ field ++ "!"
  | .indexExpr l i, _ =>
    let left := trimPercents (lowerExprWithContext l false)
    let idx := trimPercents (lowerExprWithContext i false)
    "!" ++ left ++ "_!" ++ idx ++ "!!"
  | .binaryExpr l op r, arithmetic =>
    lowerExprWithContext l arithmetic ++ " " ++ op ++ " " ++ lowerExprWithContext r arithmetic
  | .unaryExpr op r, arithmetic => op ++ lowerExprWithContext r arithmetic
  | .listLit els, _ => lowerListElems els
  | .mapLit prs, _ => lowerMapPairs prs
  | .existsCond p, _ => lowerExprWithContext p false
  | .nilExpr, _ => ""

/-- Comma-separated list elements (the ListLit loop of
`lowerExprWithContext`). -/
def lowerListElems : List Expr → String
  | [] => ""
  | [e] => lowerExprWithContext e false
  | e :: rest => lowerExprWithContext e false ++ "," ++ lowerListElems rest

/-- Comma-separated `key=value` pairs (the MapLit loop of
`lowerExprWithContext`). -/
def lowerMapPairs : List (String × Expr) → String
  | [] => ""
  | [(k, v)] => k ++ "=" ++ lowerExprWithContext v false
  | (k, v) :: rest => k ++ "=" ++ lowerExprWithContext v false ++ "," ++ lowerMapPairs rest

end

/-- Value-context expression lowering (`generator.lowerExpr`). -/
def lowerExpr (e : Expr) : String := lowerExprWithContext e false

/-- Arithmetic-context expression lowering
(`generator.lowerExprArithmetic`). -/
def lowerExprArithmetic (e : Expr) : String := lowerExprWithContext e true

/-- Arithmetic shape test (`generator.isArithmeticExpr`). -/
def isArithmeticExpr : Expr → Bool
  | .binaryExpr _ op _ => op = "+" || op = "-" || op = "*" || op = "/" || op = "**"
  | .unaryExpr op _ => op = "-"
  | _ => false

end FinV1

namespace FinV1

/-- Per-element lines of a list-valued set/assign (the ListLit loop of
`generator.lowerSetStmt`): one `set NAME_i=VALUE` per element, indices
from 0 in source order. -/
def emitListAssigns (ctx : GenContext) (name : String) (i : Nat) : List Expr → GenContext
  | [] => ctx
  | el :: rest =>
    emitListAssigns
      (ctx.emitLine ("set " ++ name ++ "_" ++ toString i ++ "=" ++ lowerExpr el))
      name (i + 1) rest

/-- Per-entry lines of a map-valued set/assign (the MapLit loop of
`generator.lowerSetStmt`). -/
def emitMapAssigns (ctx : GenContext) (name : String) : List (String × Expr) → GenContext
  | [] => ctx
  | (k, v) :: rest =>
    emitMapAssigns (ctx.emitLine ("set " ++ name ++ "_" ++ k ++ "=" ++ lowerExpr v)) name rest

/-- The index-valued right-hand side of a set/assign (the IndexExpr case
of `generator.lowerSetStmt`): literal indices use direct delayed
expansion, variable or complex indices use call-set double expansion. -/
def emitIndexAssign (ctx : GenContext) (name : String) (l idx : Expr) : GenContext :=
  match l with
  | .identExpr base =>
    match idx with
    | .numberLit v =>
      ctx.emitLine ("set " ++ name ++ "=!" ++ base ++ "_" ++ v ++ "!")
    | .identExpr iv =>
      ctx.emitLine ("call set " ++ name ++ "=%%!" ++ base ++ "!_!" ++ iv ++ "!%%")
    | _ =>
      let i := trimPercents (lowerExpr idx)
      ctx.emitLine ("call set " ++ name ++ "=%%!" ++ base ++ "!_!" ++ i ++ "!%%")
  | _ =>
    let b := trimPercents (lowerExpr l)
    let i := trimPercents (lowerExpr idx)
    ctx.emitLine ("call set " ++ name ++ "=%%!" ++ b ++ "!_!" ++ i ++ "!%%")

/-- Set statement lowering (`generator.lowerSetStmt`): lists expand per
element plus a length line, maps per entry, index right-hand sides as
above, arithmetic right-hand sides via `set /a`, all else via `set`. -/
def lowerSetStmt (ctx : GenContext) (name : String) (value : Expr) : GenContext :=
  match value with
  | .listLit els =>
    (emitListAssigns ctx name 0 els).emitLine
      ("set " ++ name ++ "_len=" ++ toString els.length)
  | .mapLit prs => emitMapAssigns ctx name prs
  | .indexExpr l idx => emitIndexAssign ctx name l idx
  | v =>
    if isArithmeticExpr v then
      ctx.emitLine ("set /a " ++ name ++ "=" ++ lowerExprArithmetic v)
    else ctx.emitLine ("set " ++ name ++ "=" ++ lowerExpr v)

/-- Assign statement lowering (`generator.lowerAssignStmt`), identical
in shape to `lowerSetStmt`. -/
def lowerAssignStmt (ctx : GenContext) (name : String) (value : Expr) : GenContext :=
  match value with
  | .listLit els =>
    (emitListAssigns ctx name 0 els).emitLine
      ("set " ++ name ++ "_len=" ++ toString els.length)
  | .mapLit prs => emitMapAssigns ctx name prs
  | .indexExpr l idx => emitIndexAssign ctx name l idx
  | v =>
    if isArithmeticExpr v then
      ctx.emitLine ("set /a " ++ name ++ "=" ++ lowerExprArithmetic v)
    else ctx.emitLine ("set " ++ name ++ "=" ++ lowerExpr v)

/-- Identifier start class used by the echo escaper
(`generator.isIdentStartByte`). -/
def isIdentStartByte (c : Char) : Bool :=
  ('A' ≤ c && c ≤ 'Z') || ('a' ≤ c && c ≤ 'z') || c = '_'

/-- Lookahead of the echo escaper: is there a closing `!` before a
space, equals sign or angle bracket? -/
def hasClosingBang : List Char → Bool
  | [] => false
  | c :: rest =>
    if c = '!' then true
    else if c = ' ' || c = '=' || c = '<' || c = '>' then false
    else hasClosingBang rest

/-- Character loop of `generator.escapeBatchSpecials`: escape `< > | &`
with `^` and standalone `!` as `^^!`, leaving `!name!` and `%name%`
expansions untouched; the booleans track being inside an expansion and
its delimiter. -/
def escapeLoop (inExpand : Bool) (expandChar : Char) : List Char → List Char
  | [] => []
  | c :: rest =>
    if c = '!' || c = '%' then
      if inExpand ∧ c = expandChar then c :: escapeLoop false '\x00' rest
      else if ¬ inExpand then
        if c = '!' then
          if hasClosingBang rest && (match rest with
              | d :: _ => isIdentStartByte d
              | [] => false) then
            c :: escapeLoop true c rest
          else '^' :: '^' :: '!' :: escapeLoop inExpand expandChar rest
        else c :: escapeLoop true c rest
      else c :: escapeLoop inExpand expandChar rest
    else if ¬ inExpand ∧ (c = '<' || c = '>' || c = '|' || c = '&') then
      '^' :: c :: escapeLoop inExpand expandChar rest
    else c :: escapeLoop inExpand expandChar rest

/-- Batch-special escaping for echo output
(`generator.escapeBatchSpecials`). -/
def escapeBatchSpecials (s : String) : String := ⟨escapeLoop false '\x00' s.data⟩

/-- Echo statement lowering (`generator.lowerEchoStmt`). -/
def lowerEchoStmt (ctx : GenContext) (value : Expr) : GenContext :=
  ctx.emitLine ("echo " ++ escapeBatchSpecials (lowerExpr value))

/-- ASCII whitespace of Go's `strings.TrimSpace`. -/
def isSpaceGo (c : Char) : Bool :=
  c = ' ' || c = '\t' || c = '\n' || c = '\r' || c = '\x0b' || c = '\x0c'

/-- Trim surrounding whitespace (`strings.TrimSpace`). -/
def trimSpaceGo (s : String) : String :=
  ⟨(((s.data.dropWhile isSpaceGo).reverse.dropWhile isSpaceGo).reverse)⟩

/-- Strip all surrounding double quotes (`strings.Trim(cmd, "\"")`). -/
def trimQuotes (s : String) : String :=
  ⟨(((s.data.dropWhile (fun c => c = '"')).reverse.dropWhile (fun c => c = '"')).reverse)⟩

/-- Run statement lowering (`generator.lowerRunStmt`): the command is
emitted verbatim after trimming whitespace and surrounding quotes. -/
def lowerRunStmt (ctx : GenContext) (command : Expr) : GenContext :=
  ctx.emitLine (trimQuotes (trimSpaceGo (lowerExpr command)))

/-- Comparison operator test (`generator.isComparisonOp`). -/
def isComparisonOp (op : String) : Bool :=
  op = "<" || op = "<=" || op = ">" || op = ">=" || op = "==" || op = "!="

/-- Numeric comparison operator test
(`generator.isNumericComparisonOp`). -/
def isNumericComparisonOp (op : String) : Bool :=
  op = "<" || op = "<=" || op = ">" || op = ">="

/-- Boolean connective test (`generator.isBooleanOp`). -/
def isBooleanOp (op : String) : Bool := op = "&&" || op = "||"

/-- Pre-computation test for comparison operands
(`generator.needsPreCompute`): numbers and identifiers are used in
place, unary operators look through, everything else is computed into a
temporary. -/
def needsPreCompute : Expr → Bool
  | .numberLit _ => false
  | .identExpr _ => false
  | .binaryExpr .. => true
  | .unaryExpr _ r => needsPreCompute r
  | _ => true

/-- Operand formatting for comparisons (the `formatForCompare` closure):
temporaries and variable-like operands are wrapped in `!…!`, literals
are used bare. The Option is the Go nil marker for operands replaced by
temporaries. -/
def formatForCompare (val : String) (e : Option Expr) : String :=
  match e with
  | none => "!" ++ val ++ "!"
  | some (.identExpr _) | some (.propertyExpr ..) | some (.indexExpr ..) => "!" ++ val ++ "!"
  | some _ => val

/-- Condition lowering of while guards with comparison operators
(`generator.lowerComparisonCondition`): pre-compute complex operands,
then jump to the end label when the INVERSE comparison holds. -/
def lowerComparisonCondition (ctx : GenContext) (l : Expr) (op : String) (r : Expr)
    (endLabel : String) : GenContext :=
  let left := lowerExprArithmetic l
  let right := lowerExprArithmetic r
  let (left, leftExpr, ctx) :=
    if needsPreCompute l then
      let (id, ctx₁) := ctx.nextLabel
      let leftTemp := mangleTemp "left" id
      (leftTemp, none, ctx₁.emitLine ("set /a " ++ leftTemp ++ "=" ++ left))
    else (left, some l, ctx)
  let (right, rightExpr, ctx) :=
    if needsPreCompute r then
      let (id, ctx₁) := ctx.nextLabel
      let rightTemp := mangleTemp "right" id
      (rightTemp, none, ctx₁.emitLine ("set /a " ++ rightTemp ++ "=" ++ right))
    else (right, some r, ctx)
  let leftCmp := formatForCompare left leftExpr
  let rightCmp := formatForCompare right rightExpr
  let cmp :=
    if op = "<" then "if " ++ leftCmp ++ " GEQ " ++ rightCmp ++ " goto " ++ endLabel
    else if op = "<=" then "if " ++ leftCmp ++ " GTR " ++ rightCmp ++ " goto " ++ endLabel
    else if op = ">" then "if " ++ leftCmp ++ " LEQ " ++ rightCmp ++ " goto " ++ endLabel
    else if op = ">=" then "if " ++ leftCmp ++ " LSS " ++ rightCmp ++ " goto " ++ endLabel
    else if op = "==" then "if " ++ leftCmp ++ " NEQ " ++ rightCmp ++ " goto " ++ endLabel
    else if op = "!=" then "if " ++ leftCmp ++ " EQU " ++ rightCmp ++ " goto " ++ endLabel
    else ""
  ctx.emitLine cmp

/-- Condition-to-guard mapping (`generator.lowerCondition`): an
exists-condition becomes Batch's `exist PATH` file test, everything else
is lowered as an expression. -/
def lowerCondition : Expr → String
  | .existsCond path => "exist " ++ lowerExpr path
  | c => lowerExpr c

/-- Escape one call argument (`generator.escapeCallArg`): returns the
escaped characters and whether quoting is required. -/
def escapeCallArgLoop : List Char → List Char × Bool
  | [] => ([], false)
  | c :: rest =>
    let (out, nq) := escapeCallArgLoop rest
    if c = '^' || c = '&' || c = '|' || c = '>' || c = '<' ||
       c = '(' || c = ')' || c = '"' then
      ('^' :: c :: out, true)
    else (c :: out, nq || c = ' ' || c = '\t')

/-- Call-argument escaping (`generator.escapeCallArg`): batch specials
are prefixed with `^`; arguments holding whitespace or specials are
wrapped in double quotes. -/
def escapeCallArg (arg : String) : String :=
  let (out, nq) := escapeCallArgLoop arg.data
  if nq then "\"" ++ String.mk out ++ "\"" else String.mk out

/-- Call statement lowering (`generator.lowerCallStmt`):
`call :fn_NAME ARG…` with escaped arguments. -/
def lowerCallStmt (ctx : GenContext) (name : String) (args : List Expr) : GenContext :=
  let rendered := String.intercalate " " (args.map (fun a => escapeCallArg (lowerExpr a)))
  ctx.emitLine ("call :" ++ mangleFunc name ++ " " ++ rendered)

/-- Return statement lowering (`generator.lowerReturnStmt`): set the
return temporary when a value is present and jump to the return label;
without an enclosing return frame the statement is unsupported. -/
def lowerReturnStmt (ctx : GenContext) (value : Expr) : Except GenError GenContext :=
  match value with
  | .nilExpr =>
    match ctx.currentReturn with
    | some ret => .ok (ctx.emitLine ("goto " ++ ret.label))
    | none => .error .unsupportedStmt
  | v =>
    match ctx.currentReturn with
    | some ret =>
      .ok ((ctx.emitLine ("set " ++ ret.tempVar ++ "=" ++ lowerExpr v)).emitLine
        ("goto " ++ ret.label))
    | none => .error .unsupportedStmt

/-- Break statement lowering (`generator.lowerBreakStmt`). -/
def lowerBreakStmt (ctx : GenContext) : Except GenError GenContext :=
  match ctx.currentLoop with
  | some labels => .ok (ctx.emitLine ("goto " ++ labels.breakLabel))
  | none => .error .unsupportedStmt

/-- Continue statement lowering (`generator.lowerContinueStmt`). -/
def lowerContinueStmt (ctx : GenContext) : Except GenError GenContext :=
  match ctx.currentLoop with
  | some labels => .ok (ctx.emitLine ("goto " ++ labels.continueLabel))
  | none => .error .unsupportedStmt

end FinV1

namespace FinV1

mutual

/-- Structural size of a statement, the termination measure of the
emission functions below. -/
def stmtSize : Stmt → Nat
  | .ifStmt _ t e => stmtsSize t + stmtsSize e + 1
  | .forStmt _ _ _ b => stmtsSize b + 1
  | .whileStmt _ b => stmtsSize b + 1
  | .fnDecl _ _ b => stmtsSize b + 1
  | _ => 1

/-- Structural size of a statement list. -/
def stmtsSize : List Stmt → Nat
  | [] => 0
  | s :: rest => stmtSize s + stmtsSize rest + 1

end

mutual

/-- Statement emission (`BatchGenerator.emitStmt`): dispatch to the
lowering of each statement kind; function declarations reaching this
point were not lifted and are an error. -/
def emitStmt (ctx : GenContext) : Stmt → Except GenError GenContext
  | .echoStmt v => .ok (lowerEchoStmt ctx v)
  | .runStmt c => .ok (lowerRunStmt ctx c)
  | .setStmt n v => .ok (lowerSetStmt ctx n v)
  | .assignStmt n v => .ok (lowerAssignStmt ctx n v)
  | .ifStmt cond t e => lowerIfStmt ctx cond t e
  | .forStmt v s e b => lowerForStmt ctx v s e b
  | .whileStmt c b => lowerWhileStmt ctx c b
  | .callStmt n args => .ok (lowerCallStmt ctx n args)
  | .returnStmt v => lowerReturnStmt ctx v
  | .breakStmt => lowerBreakStmt ctx
  | .continueStmt => lowerContinueStmt ctx
  | .fnDecl n _ _ => .error (.functionNotLifted n)
termination_by s => 4 * stmtSize s
decreasing_by all_goals (simp [stmtSize, stmtsSize]; try omega)

/-- Sequential emission of a block of statements, stopping at the first
error (each Go lowering loops over its body with the emit callback). -/
def emitBlock (ctx : GenContext) : List Stmt → Except GenError GenContext
  | [] => .ok ctx
  | s :: rest =>
    match emitStmt ctx s with
    | .error e => .error e
    | .ok c => emitBlock c rest
termination_by l => 4 * stmtsSize l + 1
decreasing_by all_goals (simp [stmtSize, stmtsSize]; try omega)

/-- If statement lowering (`generator.lowerIfStmt`): numeric comparisons
go through `lowerIfComparison`; `==`/`!=` compare quoted operands; any
other condition is evaluated and compared with the string "true". -/
def lowerIfStmt (ctx : GenContext) (cond : Expr) (thenB elseB : List Stmt) :
    Except GenError GenContext :=
  match cond with
  | .binaryExpr l op r =>
    if isNumericComparisonOp op then lowerIfComparison ctx l op r thenB elseB
    else
      let left := "\"" ++ lowerExpr l ++ "\""
      let right := "\"" ++ lowerExpr r ++ "\""
      let header :=
        if op = "==" then "if " ++ left ++ "==" ++ right ++ " ("
        else if op = "!=" then "if " ++ left ++ " NEQ " ++ right ++ " ("
        else ""
      if header ≠ "" then
        match emitBlock ((ctx.emitLine header).pushIndent) thenB with
        | .error err => .error err
        | .ok ctx₂ =>
          let ctx₃ := ctx₂.popIndent
          if elseB.length > 0 then
            match emitBlock ((ctx₃.emitLine ") else (").pushIndent) elseB with
            | .error err => .error err
            | .ok ctx₄ => .ok ((ctx₄.popIndent).emitLine ")")
          else .ok (ctx₃.emitLine ")")
      else lowerIfGeneral ctx (.binaryExpr l op r) thenB elseB
  | c => lowerIfGeneral ctx c thenB elseB
termination_by 4 * (stmtsSize thenB + stmtsSize elseB) + 3
decreasing_by all_goals (simp [stmtSize, stmtsSize]; try omega)

/-- The fallthrough tail of `generator.lowerIfStmt`: evaluate the
condition as an expression and compare with the literal "true". -/
def lowerIfGeneral (ctx : GenContext) (cond : Expr) (thenB elseB : List Stmt) :
    Except GenError GenContext :=
  let header := "if \"" ++ lowerExpr cond ++ "\"==\"true\" ("
  match emitBlock ((ctx.emitLine header).pushIndent) thenB with
  | .error err => .error err
  | .ok ctx₂ =>
    let ctx₃ := ctx₂.popIndent
    if elseB.length > 0 then
      match emitBlock ((ctx₃.emitLine ") else (").pushIndent) elseB with
      | .error err => .error err
      | .ok ctx₄ => .ok ((ctx₄.popIndent).emitLine ")")
    else .ok (ctx₃.emitLine ")")
termination_by 4 * (stmtsSize thenB + stmtsSize elseB) + 2
decreasing_by all_goals (simp [stmtSize, stmtsSize]; try omega)

/-- Numeric comparison if lowering (`generator.lowerIfComparison`):
pre-compute complex operands, map the operator to its Batch mnemonic,
and emit the guarded blocks. -/
def lowerIfComparison (ctx : GenContext) (l : Expr) (op : String) (r : Expr)
    (thenB elseB : List Stmt) : Except GenError GenContext :=
  let left := lowerExprArithmetic l
  let right := lowerExprArithmetic r
  let (left, ctx) :=
    if needsPreCompute l then
      let (id, ctx₁) := ctx.nextLabel
      let leftTemp := mangleTemp "left" id
      (leftTemp, ctx₁.emitLine ("set /a " ++ leftTemp ++ "=" ++ left))
    else (left, ctx)
  let (right, ctx) :=
    if needsPreCompute r then
      let (id, ctx₁) := ctx.nextLabel
      let rightTemp := mangleTemp "right" id
      (rightTemp, ctx₁.emitLine ("set /a " ++ rightTemp ++ "=" ++ right))
    else (right, ctx)
  let batchOp :=
    if op = "<" then "LSS"
    else if op = "<=" then "LEQ"
    else if op = ">" then "GTR"
    else if op = ">=" then "GEQ"
    else if op = "==" then "EQU"
    else if op = "!=" then "NEQ"
    else ""
  let leftCmp := formatForCompare left (some l)
  let rightCmp := formatForCompare right (some r)
  let header := "if " ++ leftCmp ++ " " ++ batchOp ++ " " ++ rightCmp ++ " ("
  match emitBlock ((ctx.emitLine header).pushIndent) thenB with
  | .error err => .error err
  | .ok ctx₂ =>
    let ctx₃ := ctx₂.popIndent
    if elseB.length > 0 then
      match emitBlock ((ctx₃.emitLine ") else (").pushIndent) elseB with
      | .error err => .error err
      | .ok ctx₄ => .ok ((ctx₄.popIndent).emitLine ")")
    else .ok (ctx₃.emitLine ")")
termination_by 4 * (stmtsSize thenB + stmtsSize elseB) + 2
decreasing_by all_goals (simp [stmtSize, stmtsSize]; try omega)

/-- For statement lowering (`generator.lowerForStmt`): counted loop over
labels with the loop stack pushed around the body. -/
def lowerForStmt (ctx : GenContext) (var : String) (start stop : Expr)
    (body : List Stmt) : Except GenError GenContext :=
  let startVal := lowerExpr start
  let endVal := lowerExpr stop
  let (id, ctx) := ctx.nextLabel
  let startLbl := loopContinueLabel id
  let endLbl := loopBreakLabel id
  let ctx := ctx.emitLine ("set /a " ++ var ++ "=" ++ startVal)
  let ctx := ctx.emitRawLine (":" ++ startLbl)
  let ctx := ctx.emitLine ("if !" ++ var ++ "! GTR " ++ endVal ++ " goto " ++ endLbl)
  let ctx := (ctx.pushLoop endLbl startLbl).pushIndent
  match emitBlock ctx body with
  | .error err => .error err
  | .ok ctx₁ =>
    let ctx₂ := (ctx₁.popIndent).popLoop
    .ok (((ctx₂.emitLine ("set /a " ++ var ++ "=" ++ var ++ "+1")).emitLine
      ("goto " ++ startLbl)).emitRawLine (":" ++ endLbl))
termination_by 4 * stmtsSize body + 2
decreasing_by all_goals (simp [stmtSize, stmtsSize]; try omega)

/-- While statement lowering (`generator.lowerWhileStmt`): guard the
loop with the inverted condition jumping to the end label, with the loop
stack pushed around the body. -/
def lowerWhileStmt (ctx : GenContext) (cond : Expr) (body : List Stmt) :
    Except GenError GenContext :=
  let (id, ctx) := ctx.nextLabel
  let start := whileStartLabel id
  let endL := whileEndLabel id
  let ctx := ctx.emitRawLine (":" ++ start)
  let ctx :=
    match cond with
    | .existsCond p =>
      ctx.emitLine ("if not " ++ lowerCondition (.existsCond p) ++ " goto " ++ endL)
    | .binaryExpr l op r =>
      if isComparisonOp op then lowerComparisonCondition ctx l op r endL
      else
        -- boolean connectives and plain arithmetic share the same shape
        let arith := lowerExprArithmetic (.binaryExpr l op r)
        let (id2, ctx₁) := ctx.nextLabel
        let temp := mangleTemp "cond" id2
        (ctx₁.emitLine ("set /a " ++ temp ++ "=(" ++ arith ++ ")")).emitLine
          ("if !" ++ temp ++ "! equ 0 goto " ++ endL)
    | .boolLit b =>
      if ¬ b then ctx.emitLine ("goto " ++ endL) else ctx
    | c =>
      let arith := lowerExprArithmetic c
      let (id2, ctx₁) := ctx.nextLabel
      let temp := mangleTemp "cond" id2
      (ctx₁.emitLine ("set /a " ++ temp ++ "=(" ++ arith ++ ")")).emitLine
        ("if !" ++ temp ++ "! equ 0 goto " ++ endL)
  let ctx := ctx.pushLoop endL start
  match emitBlock ctx body with
  | .error err => .error err
  | .ok ctx₁ =>
    .ok (((ctx₁.popLoop).emitLine ("goto " ++ start)).emitRawLine (":" ++ endL))
termination_by 4 * stmtsSize body + 2
decreasing_by all_goals (simp [stmtSize, stmtsSize]; try omega)

end

end FinV1

namespace FinV1

/-- Positional parameter lines of a function label (the parameter loop
of `generator.lowerFnDecl`): `set PARAM=%N`, N counted from 1. -/
def emitParamSets (ctx : GenContext) (i : Nat) : List String → GenContext
  | [] => ctx
  | q :: rest =>
    emitParamSets (ctx.emitLine ("set " ++ q ++ "=%" ++ toString i)) (i + 1) rest

/-- Function declaration lowering (`generator.lowerFnDecl`): a label,
delayed-expansion setlocal, positional parameter sets, the return
temporary, the body inside a pushed return frame, and the return
label with the endlocal hand-off. -/
def lowerFnDecl (ctx : GenContext) (name : String) (params : List String)
    (body : List Stmt) : Except GenError GenContext :=
  let label := mangleFunc name
  let retLabel := fnReturnLabel name
  let (id, ctx) := ctx.nextLabel
  let retTemp := mangleTemp ("ret_" ++ name) id
  let outVar := mangleFunc name ++ "_ret"
  let ctx := ctx.emitLine "goto :eof"
  let ctx := ctx.emitLine (":" ++ label)
  let ctx := ctx.emitLine "setlocal EnableDelayedExpansion"
  let ctx := emitParamSets ctx 1 params
  let ctx := ctx.emitLine ("set " ++ retTemp ++ "=")
  let ctx := (ctx.pushReturn retLabel retTemp outVar).pushIndent
  match emitBlock ctx body with
  | .error e => .error e
  | .ok ctx₁ =>
    let ctx₂ := (ctx₁.popIndent).popReturn
    .ok (((ctx₂.emitLine (":" ++ retLabel)).emitLine
      ("endlocal & set " ++ outVar ++ "=%" ++ retTemp ++ "%")).emitLine "goto :eof")

/-- Top-level loop of `BatchGenerator.Generate`: emit every non-function
statement in order, collecting the function declarations in source
order for the later pass. -/
def emitTopLevels (ctx : GenContext) :
    List Stmt → Except GenError (GenContext × List (String × List String × List Stmt))
  | [] => .ok (ctx, [])
  | .fnDecl n ps b :: rest =>
    match emitTopLevels ctx rest with
    | .error e => .error e
    | .ok (c, fns) => .ok (c, (n, ps, b) :: fns)
  | s :: rest =>
    match emitStmt ctx s with
    | .error e => .error e
    | .ok c => emitTopLevels c rest

/-- Function pass of `BatchGenerator.Generate`: lower each collected
declaration in order. -/
def emitFunctions (ctx : GenContext) :
    List (String × List String × List Stmt) → Except GenError GenContext
  | [] => .ok ctx
  | (n, ps, b) :: rest =>
    match lowerFnDecl ctx n ps b with
    | .error e => .error e
    | .ok c => emitFunctions c rest

/-- Whole-program generation (`BatchGenerator.Generate`): prologue,
top-level statements, lifted functions, epilogue; any lowering error
yields the empty output string together with the error, exactly as the
Go method returns ("", err). -/
def Generate (p : Program) : String × Option GenError :=
  let ctx := (NewContext.emitLine "@echo off").emitLine "setlocal EnableDelayedExpansion"
  match emitTopLevels ctx p.statements with
  | .error e => ("", some e)
  | .ok (ctx', fns) =>
    match emitFunctions ctx' fns with
    | .error e => ("", some e)
    | .ok ctx'' => ((ctx''.emitLine "endlocal").render, none)

end FinV1

namespace FinV1

mutual

/-- Does this statement contain a Return that is not enclosed by any
function declaration (loops and conditionals do not shield it)? -/
def retOutsideFn : Stmt → Bool
  | .returnStmt _ => true
  | .ifStmt _ t e => retOutsideFnList t || retOutsideFnList e
  | .forStmt _ _ _ b => retOutsideFnList b
  | .whileStmt _ b => retOutsideFnList b
  | _ => false

/-- List form of `retOutsideFn`. -/
def retOutsideFnList : List Stmt → Bool
  | [] => false
  | s :: rest => retOutsideFn s || retOutsideFnList rest

end

mutual

/-- Does this statement contain a Break or Continue that is not
enclosed by any loop (conditionals and function bodies do not shield
it)? -/
def breakOutsideLoop : Stmt → Bool
  | .breakStmt => true
  | .continueStmt => true
  | .ifStmt _ t e => breakOutsideLoopList t || breakOutsideLoopList e
  | .fnDecl _ _ b => breakOutsideLoopList b
  | _ => false

/-- List form of `breakOutsideLoop`. -/
def breakOutsideLoopList : List Stmt → Bool
  | [] => false
  | s :: rest => breakOutsideLoop s || breakOutsideLoopList rest

end

/-- A program holds a Return outside every function body, or a Break or
Continue outside every loop body. -/
def misplaced (p : Program) : Bool :=
  retOutsideFnList p.statements || breakOutsideLoopList p.statements

/-- The lines the spec promises for a list-valued set (claim C9): one
`set NAME_i=VALUE` per element, indices counted from the given start. -/
def specListLines (name : String) (i : Nat) : List Expr → List String
  | [] => []
  | el :: rest =>
    ("set " ++ name ++ "_" ++ toString i ++ "=" ++ lowerExpr el) ::
      specListLines name (i + 1) rest

/-- The full line list the spec promises for a list-valued set (claim
C9): the element lines from index 0 followed by the length line. -/
def specSetListLines (name : String) (es : List Expr) : List String :=
  specListLines name 0 es ++ ["set " ++ name ++ "_len=" ++ toString es.length]

end FinV1

namespace FinV1

/-! Theorems. Each claim of the specification is settled below; helper
lemmas carry no claim ids. -/

/-- Claim C2 (code bug evidence): the semantic analyzer emits no
diagnostic for a top-level Return, Break or Continue — its ReturnStmt
case only recurses on the value and its Break/Continue cases validate
nothing — although the spec (and the repository's own integration test
for `ReturnOutsideFunctionError`) require ReturnOutsideFunction and the
outside-loop errors. -/
theorem c2_analyzer_silent_on_misplaced_control :
    Analyze ⟨[.returnStmt .nilExpr]⟩ = [] ∧
    Analyze ⟨[.returnStmt (.numberLit "1")]⟩ = [] ∧
    Analyze ⟨[.breakStmt]⟩ = [] ∧
    Analyze ⟨[.continueStmt]⟩ = [] ∧
    Analyze ⟨[.whileStmt (.boolLit true) []]⟩ = [] := by
  decide

/-- Claim C6 (code bug evidence): the v1 keyword table converts the
fourteen words it holds, but `break` and `continue` are missing from
it, so the scanner emits them as identifier tokens — the statement
parser and the repository's parser tests expect keyword tokens. -/
theorem c6_keyword_table_divergence :
    LookupIdent "set" = .SET ∧ LookupIdent "echo" = .ECHO ∧
    LookupIdent "run" = .RUN ∧ LookupIdent "if" = .IF ∧
    LookupIdent "else" = .ELSE ∧ LookupIdent "end" = .END ∧
    LookupIdent "for" = .FOR ∧ LookupIdent "while" = .WHILE ∧
    LookupIdent "in" = .IN ∧ LookupIdent "exists" = .EXISTS ∧
    LookupIdent "fn" = .FN ∧ LookupIdent "return" = .RETURN ∧
    LookupIdent "true" = .TRUE ∧ LookupIdent "false" = .FALSE ∧
    LookupIdent "break" = .IDENT ∧ LookupIdent "continue" = .IDENT ∧
    tokenize "break" = [⟨.IDENT, "break"⟩, ⟨.EOF, ""⟩] ∧
    tokenize "continue" = [⟨.IDENT, "continue"⟩, ⟨.EOF, ""⟩] := by
  decide

/-- Claim C5 (code bug evidence): formatting is not idempotent. The
source `echo "hi"` parses cleanly and formats to `echo hi` (the
formatter prints string literals without quotes); re-parsing that
output reads `hi` as an identifier, so the second format yields
`echo $hi`, a different byte string. -/
theorem c5_format_not_idempotent :
    parseErrorsOf "echo \"hi\"\n" = [] ∧
    formatParse "echo \"hi\"\n" = "echo hi" ∧
    parseErrorsOf (formatParse "echo \"hi\"\n") = [] ∧
    formatParse (formatParse "echo \"hi\"\n") = "echo $hi" ∧
    formatParse (formatParse "echo \"hi\"\n") ≠ formatParse "echo \"hi\"\n" := by
  refine ⟨by decide, by decide, by decide, by decide, by decide⟩

/-- Claim C7 (counterexample): a second `set` of the already-defined
name `x` in the same (module) scope is not accepted silently — the
analyzer reports a ShadowingError for it. -/
theorem c7_counterexample :
    Analyze ⟨[.setStmt "x" (.numberLit "1"), .setStmt "x" (.numberLit "2")]⟩ =
      [.shadowing "x"] ∧
    Analyze ⟨[.setStmt "x" (.numberLit "1"), .setStmt "x" (.numberLit "2")]⟩ ≠ [] := by
  decide

/-- Claim C7 (amended): for any non-reserved name, a second `set` of
that name in the same scope is rejected with exactly one ShadowingError
diagnostic — `Scope.Define` refuses any name already defined in the
current or an enclosing scope, so `set` never silently redefines. -/
theorem c7_set_redefinition_rejected (name v₁ v₂ : String)
    (h : IsReserved name = false) :
    Analyze ⟨[.setStmt name (.numberLit v₁), .setStmt name (.numberLit v₂)]⟩ =
      [.shadowing name] := by
  simp [Analyze, AnalyzeDefinitions, registerFns, analyzeStmts, analyzeStmt,
    ValidateIdentifier, h, scopeDefine, scopeLookup, analyzeExpr]

/-- Witness for `c7_set_redefinition_rejected` at the concrete name
`x`. -/
theorem c7_witness :
    IsReserved "x" = false ∧
    Analyze ⟨[.setStmt "x" (.numberLit "1"), .setStmt "x" (.numberLit "7")]⟩ =
      [.shadowing "x"] :=
  ⟨by decide, c7_set_redefinition_rejected "x" "1" "7" (by decide)⟩

/-- Token list for the source expression `-$x[0]`. -/
def c4ToksNegIndex : List Token :=
  [⟨.MINUS, "-"⟩, ⟨.IDENT, "x"⟩, ⟨.LBRACKET, "["⟩, ⟨.NUMBER, "0"⟩,
   ⟨.RBRACKET, "]"⟩, ⟨.EOF, ""⟩]

/-- Claim C4 (counterexample): indexing does not bind more tightly than
prefix minus. The Pratt parser gives `-$x[0]` the shape `(-$x)[0]` —
index and the prefix operators share binding power 7 — whereas the
claimed ladder (index above prefix) would give `-($x[0])`. -/
theorem c4_counterexample :
    parseExprToks c4ToksNegIndex =
      .indexExpr (.unaryExpr "-" (.identExpr "x")) (.numberLit "0") ∧
    parseExprToks c4ToksNegIndex ≠
      .unaryExpr "-" (.indexExpr (.identExpr "x") (.numberLit "0")) := by
  refine ⟨rfl, fun h => ?_⟩
  rw [show parseExprToks c4ToksNegIndex =
      .indexExpr (.unaryExpr "-" (.identExpr "x")) (.numberLit "0") from rfl] at h
  exact Expr.noConfusion h

/-- Claim C4 (amended): the top of the implemented precedence ladder
is: `**` (power 8, right-associative) binds most tightly; index `[…]`,
property `.name` and the prefix operators `-`, `!` share power 7; `*`
and `/` sit below at power 6. Concretely: `-$x[0]` is `(-$x)[0]`,
`!$x.y` is `(!$x).y`, `-$x ** 2` is `-($x ** 2)`, `$a * $b ** $c` is
`$a * ($b ** $c)`, `$a ** $b * $c` is `($a ** $b) * $c`, and
`$a ** $b ** $c` associates to the right. -/
theorem c4_precedence_amended :
    parseExprToks c4ToksNegIndex =
      .indexExpr (.unaryExpr "-" (.identExpr "x")) (.numberLit "0") ∧
    parseExprToks [⟨.BANG, "!"⟩, ⟨.IDENT, "x"⟩, ⟨.DOT, "."⟩, ⟨.IDENT, "y"⟩, ⟨.EOF, ""⟩] =
      .propertyExpr (.unaryExpr "!" (.identExpr "x")) "y" ∧
    parseExprToks [⟨.MINUS, "-"⟩, ⟨.IDENT, "x"⟩, ⟨.POW, "**"⟩, ⟨.NUMBER, "2"⟩, ⟨.EOF, ""⟩] =
      .unaryExpr "-" (.binaryExpr (.identExpr "x") "**" (.numberLit "2")) ∧
    parseExprToks [⟨.IDENT, "a"⟩, ⟨.STAR, "*"⟩, ⟨.IDENT, "b"⟩, ⟨.POW, "**"⟩, ⟨.IDENT, "c"⟩, ⟨.EOF, ""⟩] =
      .binaryExpr (.identExpr "a") "*" (.binaryExpr (.identExpr "b") "**" (.identExpr "c")) ∧
    parseExprToks [⟨.IDENT, "a"⟩, ⟨.POW, "**"⟩, ⟨.IDENT, "b"⟩, ⟨.STAR, "*"⟩, ⟨.IDENT, "c"⟩, ⟨.EOF, ""⟩] =
      .binaryExpr (.binaryExpr (.identExpr "a") "**" (.identExpr "b")) "*" (.identExpr "c") ∧
    parseExprToks [⟨.IDENT, "a"⟩, ⟨.POW, "**"⟩, ⟨.IDENT, "b"⟩, ⟨.POW, "**"⟩, ⟨.IDENT, "c"⟩, ⟨.EOF, ""⟩] =
      .binaryExpr (.identExpr "a") "**" (.binaryExpr (.identExpr "b") "**" (.identExpr "c")) :=
  ⟨rfl, rfl, rfl, rfl, rfl, rfl⟩

theorem takeWhile_append_of (p : Char → Bool) :
    ∀ (l₁ l₂ : List Char), (∀ a ∈ l₁, p a = true) →
      (∀ d ∈ l₂.head?, p d = false) →
      (l₁ ++ l₂).takeWhile p = l₁ ∧ (l₁ ++ l₂).dropWhile p = l₂ := by
  intro l₁
  induction l₁ with
  | nil =>
    intro l₂ _ h2
    cases l₂ with
    | nil => simp
    | cons d rest =>
      simp at h2
      simp [List.takeWhile, List.dropWhile, h2]
  | cons a l₁ ih =>
    intro l₂ h1 h2
    have ha : p a = true := h1 a (by simp)
    have hrec := ih l₂ (fun x hx => h1 x (by simp [hx])) h2
    simp [List.takeWhile_cons, List.dropWhile_cons, ha, hrec.1, hrec.2]

theorem interpChars_fuel_inv :
    ∀ (f₁ : Nat) (l : List Char) (f₂ : Nat), l.length < f₁ → l.length < f₂ →
      interpChars f₁ l = interpChars f₂ l := by
  intro f₁
  induction f₁ with
  | zero => intro l f₂ h1 _; exact absurd h1 (by omega)
  | succ n ih =>
    intro l f₂ h1 h2
    obtain ⟨m, rfl⟩ : ∃ m, f₂ = m + 1 := ⟨f₂ - 1, by omega⟩
    cases l with
    | nil => simp [interpChars]
    | cons c rest =>
      simp only [List.length_cons] at h1 h2
      by_cases hc : c = '$'
      · subst hc
        cases rest with
        | nil => simp [interpChars]
        | cons d rest' =>
          simp only [List.length_cons] at h1 h2
          have hdw : (rest'.dropWhile isIdentPart).length ≤ rest'.length :=
            (List.dropWhile_sublist _).length_le
          by_cases hd : d = '$'
          · subst hd
            simp only [interpChars]
            rw [ih rest' m (by omega) (by omega)]
          · simp only [interpChars]
            split
            · rw [ih (rest'.dropWhile isIdentPart) m (by omega) (by omega)]
            · rw [ih (d :: rest') m (by simp; omega) (by simp; omega)]
      · simp only [interpChars]
        rw [ih rest m (by omega) (by omega)]

/-- Claim C1 (counterexample): string lowering replaces `$x` by the
immediate expansion `%x%`, not the claimed delayed `!x!`; `$a.b` and
`$v[1]` get no field/index treatment (the suffixes stay literal), and
only `$$` behaves as claimed. -/
theorem c1_counterexample :
    lowerExprWithContext (.stringLit "$x") false = "%x%" ∧
    lowerExprWithContext (.stringLit "$x") false ≠ "!x!" ∧
    lowerExprWithContext (.stringLit "$a.b") false = "%a%.b" ∧
    lowerExprWithContext (.stringLit "$a.b") false ≠ "!a_b!" ∧
    lowerExprWithContext (.stringLit "$v[1]") false = "%v%[1]" ∧
    lowerExprWithContext (.stringLit "$v[1]") false ≠ "!v_1!" ∧
    lowerExprWithContext (.stringLit "$$") false = "$" := by
  decide

/-- Claim C1 (amended): the generator's string lowering replaces every
`$IDENT` occurrence by the immediate expansion `%IDENT%` (the maximal
identifier run after `$`), leaves any following `.FIELD` or `[N]` text
literal, and turns the escape `$$` into a literal `$`. -/
theorem c1_interpolation_amended (c : Char) (name rest : List Char)
    (hstart : isIdentStart c = true)
    (hname : ∀ d ∈ name, isIdentPart d = true)
    (hrest : ∀ d ∈ rest.head?, isIdentPart d = false) :
    interpolateString ⟨'$' :: c :: (name ++ rest)⟩ =
      ⟨'%' :: c :: name⟩ ++ "%" ++ interpolateString ⟨rest⟩ ∧
    interpolateString ⟨'$' :: '$' :: rest⟩ = "$" ++ interpolateString ⟨rest⟩ ∧
    (∀ s : String, lowerExprWithContext (.stringLit s) false = interpolateString s) := by
  have hc : c ≠ '$' := by
    intro h; subst h; simp [isIdentStart] at hstart
  have tw := takeWhile_append_of isIdentPart name rest hname hrest
  refine ⟨?_, ?_, fun s => rfl⟩
  · apply String.ext
    simp only [interpolateString, String.data_append]
    simp only [interpChars, List.length_cons, hc, tw.1, tw.2, hstart]
    simp only [if_true]
    rw [interpChars_fuel_inv _ rest (rest.length + 1) (by simp; omega) (by omega)]
    simp
  · apply String.ext
    simp only [interpolateString, String.data_append]
    simp only [interpChars, List.length_cons]
    rw [interpChars_fuel_inv _ rest (rest.length + 1) (by omega) (by omega)]
    simp [String.data]

/-- Witness for `c1_interpolation_amended` at `$x.f` (identifier `x`,
literal suffix `.f`) and at `$$.f`. -/
theorem c1_witness :
    interpolateString ⟨['$', 'x', '.', 'f']⟩ =
      ⟨['%', 'x']⟩ ++ "%" ++ interpolateString ⟨['.', 'f']⟩ ∧
    interpolateString ⟨['$', '$', '.', 'f']⟩ = "$" ++ interpolateString ⟨['.', 'f']⟩ :=
  ⟨(c1_interpolation_amended 'x' [] ['.', 'f'] (by decide) (by decide) (by decide)).1,
   (c1_interpolation_amended 'x' [] ['.', 'f'] (by decide) (by decide) (by decide)).2.1⟩

/-- Analyzing a list of numeric literal arguments yields no
diagnostics. -/
theorem analyzeExprList_replicate (scope : ScopeChain) (n : Nat) (v : String) :
    analyzeExprList scope (List.replicate n (.numberLit v)) = [] := by
  induction n with
  | zero => simp [analyzeExprList]
  | succ k ih => simp [List.replicate, analyzeExprList, analyzeExpr, ih]

/-- Registering distinct, non-reserved, non-colliding parameters in a
fresh function scope yields no diagnostics. -/
theorem defineParams_clean :
    ∀ (params : List String) (fr : List String) (rest : ScopeChain),
      params.Nodup →
      (∀ q ∈ params, IsReserved q = false ∧ q ∉ fr ∧ ∀ f ∈ rest, q ∉ f) →
      (defineParams (fr :: rest) params).2 = [] := by
  intro params
  induction params with
  | nil => intro fr rest _ _; simp [defineParams]
  | cons q ps ih =>
    intro fr rest hnd hq
    obtain ⟨hres, hfr, hrest⟩ := hq q (by simp)
    have hlook : scopeLookup (fr :: rest) q = false := by
      simp [scopeLookup]
      exact ⟨hfr, fun f hf => hrest f hf⟩
    have hrec := ih (q :: fr) rest (by simp at hnd; exact hnd.2)
      (fun x hx => by
        obtain ⟨a, b, c⟩ := hq x (by simp [hx])
        refine ⟨a, ?_, c⟩
        simp at hnd ⊢
        exact ⟨fun hxq => hnd.1 (hxq ▸ hx), b⟩)
    simp [defineParams, ValidateIdentifier, hres, scopeDefine, hlook, hrec]

/-- Claim C8: forward references resolve. For a top-level call of `g`
that precedes the declaration of `g` (any non-reserved name, any
distinct non-reserved parameters), the two-pass analyzer registers the
function first, so the call produces no undefined-symbol diagnostic,
and an invalid-arity diagnostic is produced exactly when the argument
count differs from the declared parameter count. -/
theorem c8_forward_reference_resolves (g : String) (params : List String) (n : Nat)
    (hg : IsReserved g = false)
    (hparams : ∀ q ∈ params, IsReserved q = false ∧ q ≠ g)
    (hnodup : params.Nodup) :
    Analyze ⟨[.callStmt g (List.replicate n (.numberLit "1")),
              .fnDecl g params []]⟩ =
      (if params.length ≠ n then [SemaError.invalidArity g params.length n] else []) ∧
    SemaError.undefinedVariable g ∉
      Analyze ⟨[.callStmt g (List.replicate n (.numberLit "1")),
                .fnDecl g params []]⟩ := by
  have hdp := defineParams_clean params [] [[g]] hnodup
    (fun q hq => by
      obtain ⟨a, b⟩ := hparams q hq
      exact ⟨a, by simp, by simp [b]⟩)
  have hmain : Analyze ⟨[.callStmt g (List.replicate n (.numberLit "1")),
      .fnDecl g params []]⟩ =
      (if params.length ≠ n then [SemaError.invalidArity g params.length n] else []) := by
    simp [Analyze, AnalyzeDefinitions, registerFns, ValidateIdentifier, hg,
      scopeDefine, scopeLookup, regDefine, analyzeStmts, analyzeStmt, regLookup,
      analyzeExprList_replicate, hdp]
  refine ⟨hmain, ?_⟩
  rw [hmain]
  by_cases h : params.length = n <;> simp [h]

/-- Witness for `c8_forward_reference_resolves`: a call of `f` with two
numeric arguments before `fn f a b` analyzes cleanly, and the same call
with one argument yields exactly the arity diagnostic. -/
theorem c8_witness :
    Analyze ⟨[.callStmt "f" (List.replicate 2 (.numberLit "1")),
              .fnDecl "f" ["a", "b"] []]⟩ = [] ∧
    Analyze ⟨[.callStmt "f" (List.replicate 1 (.numberLit "1")),
              .fnDecl "f" ["a", "b"] []]⟩ = [.invalidArity "f" 2 1] := by
  constructor
  · have h := (c8_forward_reference_resolves "f" ["a", "b"] 2 (by decide)
      (by decide) (by decide)).1
    simpa using h
  · have h := (c8_forward_reference_resolves "f" ["a", "b"] 1 (by decide)
      (by decide) (by decide)).1
    simpa using h

/-- An empty indentation prefix at level zero. -/
theorem indStr_zero : indStr 0 = "" := rfl

/-- Left identity of string append. -/
theorem empty_append_str (s : String) : "" ++ s = s := by
  apply String.ext
  simp [String.data_append]

/-- The element loop of a list-valued set emits exactly the per-element
lines (at top-level indentation) and keeps the indentation. -/
theorem emitListAssigns_out :
    ∀ (es : List Expr) (ctx : GenContext) (name : String) (i : Nat),
      ctx.indent = 0 →
      (emitListAssigns ctx name i es).out = ctx.out ++ specListLines name i es ∧
      (emitListAssigns ctx name i es).indent = 0 := by
  intro es
  induction es with
  | nil => intro ctx name i h; simp [emitListAssigns, specListLines, h]
  | cons el rest ih =>
    intro ctx name i h
    have hrec := ih (ctx.emitLine ("set " ++ name ++ "_" ++ toString i ++ "=" ++ lowerExpr el))
      name (i + 1) (by simp [GenContext.emitLine, h])
    simp only [emitListAssigns, specListLines]
    refine ⟨?_, hrec.2⟩
    rw [hrec.1]
    simp [GenContext.emitLine, h, indStr_zero, empty_append_str]

/-- The per-element line list has one line per element. -/
theorem specListLines_length (name : String) :
    ∀ (es : List Expr) (i : Nat), (specListLines name i es).length = es.length := by
  intro es
  induction es with
  | nil => intro i; simp [specListLines]
  | cons el rest ih => intro i; simp [specListLines, ih]

/-- Claim C9: a set whose value is a list literal of N elements emits
exactly N+1 `set` lines — `set NAME_i=VALUE` per element, indices from
0 in source order, followed by `set NAME_len=N`. -/
theorem c9_list_set_lowering (ctx : GenContext) (name : String) (es : List Expr)
    (h : ctx.indent = 0) :
    (lowerSetStmt ctx name (.listLit es)).out =
      ctx.out ++ specListLines name 0 es ++
        ["set " ++ name ++ "_len=" ++ toString es.length] ∧
    (specListLines name 0 es).length = es.length := by
  have hel := emitListAssigns_out es ctx name 0 h
  constructor
  · simp only [lowerSetStmt, GenContext.emitLine, hel.1, hel.2, indStr_zero,
      empty_append_str]
    try simp
  · exact specListLines_length name es 0

/-- Witness for `c9_list_set_lowering` on a two-element list. -/
theorem c9_witness :
    (lowerSetStmt NewContext "xs" (.listLit [.numberLit "1", .stringLit "a"])).out =
      ["set xs_0=1", "set xs_1=a", "set xs_len=2"] := by
  have h := (c9_list_set_lowering NewContext "xs"
    [.numberLit "1", .stringLit "a"] rfl).1
  simpa using h

/-- Claim C3 (code bug evidence): the exists-condition does lower to
Batch's `exist PATH` predicate through `lowerCondition`, and a while
with an exists-condition emits the guard
`if not exist PATH goto while_end_k`; but an `if` whose condition is
`exists PATH` does not route through `lowerCondition` — its guard is
the string comparison `if "PATH"=="true" (`, never a test of
`exist PATH`. -/
theorem c3_exists_condition_lowering :
    (∀ path, lowerCondition (.existsCond path) = "exist " ++ lowerExpr path) ∧
    emitStmt NewContext (.whileStmt (.existsCond (.stringLit "f.txt")) []) =
      .ok ⟨1, 0, [":while_start_1", "if not exist f.txt goto while_end_1",
        "goto while_start_1", ":while_end_1"], [], []⟩ ∧
    emitStmt NewContext (.ifStmt (.existsCond (.stringLit "f.txt")) [] []) =
      .ok ⟨0, 0, ["if \"f.txt\"==\"true\" (", ")"], [], []⟩ ∧
    (["if \"f.txt\"==\"true\" (", ")"] : List String) ≠ ["if exist f.txt (", ")"] := by
  refine ⟨fun path => rfl, ?_, ?_, by decide⟩
  · simp only [emitStmt, lowerWhileStmt, emitBlock]
    rfl
  · simp only [emitStmt, lowerIfStmt, lowerIfGeneral, emitBlock]
    rfl

@[simp] theorem emitLine_loopStack (c : GenContext) (s : String) :
    (c.emitLine s).loopStack = c.loopStack := rfl
@[simp] theorem emitLine_returnStack (c : GenContext) (s : String) :
    (c.emitLine s).returnStack = c.returnStack := rfl
@[simp] theorem emitRawLine_loopStack (c : GenContext) (s : String) :
    (c.emitRawLine s).loopStack = c.loopStack := rfl
@[simp] theorem emitRawLine_returnStack (c : GenContext) (s : String) :
    (c.emitRawLine s).returnStack = c.returnStack := rfl
@[simp] theorem pushIndent_loopStack (c : GenContext) :
    c.pushIndent.loopStack = c.loopStack := rfl
@[simp] theorem pushIndent_returnStack (c : GenContext) :
    c.pushIndent.returnStack = c.returnStack := rfl
@[simp] theorem popIndent_loopStack (c : GenContext) :
    c.popIndent.loopStack = c.loopStack := rfl
@[simp] theorem popIndent_returnStack (c : GenContext) :
    c.popIndent.returnStack = c.returnStack := rfl
@[simp] theorem pushLoop_loopStack (c : GenContext) (b k : String) :
    (c.pushLoop b k).loopStack = c.loopStack ++ [⟨b, k⟩] := rfl
@[simp] theorem popLoop_loopStack (c : GenContext) :
    c.popLoop.loopStack = c.loopStack.dropLast := rfl
@[simp] theorem pushLoop_returnStack (c : GenContext) (b k : String) :
    (c.pushLoop b k).returnStack = c.returnStack := rfl
@[simp] theorem popLoop_returnStack (c : GenContext) :
    c.popLoop.returnStack = c.returnStack := rfl
@[simp] theorem pushReturn_returnStack (c : GenContext) (a b d : String) :
    (c.pushReturn a b d).returnStack = c.returnStack ++ [⟨a, b, d⟩] := rfl
@[simp] theorem popReturn_returnStack (c : GenContext) :
    c.popReturn.returnStack = c.returnStack.dropLast := rfl
@[simp] theorem pushReturn_loopStack (c : GenContext) (a b d : String) :
    (c.pushReturn a b d).loopStack = c.loopStack := rfl
@[simp] theorem popReturn_loopStack (c : GenContext) :
    c.popReturn.loopStack = c.loopStack := rfl
@[simp] theorem nextLabel_loopStack (c : GenContext) :
    c.nextLabel.2.loopStack = c.loopStack := rfl
@[simp] theorem nextLabel_returnStack (c : GenContext) :
    c.nextLabel.2.returnStack = c.returnStack := rfl

theorem emitParamSets_stacks (ps : List String) :
    ∀ (ctx : GenContext) (i : Nat),
      (emitParamSets ctx i ps).loopStack = ctx.loopStack ∧
      (emitParamSets ctx i ps).returnStack = ctx.returnStack := by
  induction ps with
  | nil => intro ctx i; simp [emitParamSets]
  | cons q rest ih =>
    intro ctx i
    simp [emitParamSets, (ih _ (i + 1)).1, (ih _ (i + 1)).2]

theorem emitListAssigns_stacks (es : List Expr) :
    ∀ (ctx : GenContext) (name : String) (i : Nat),
      (emitListAssigns ctx name i es).loopStack = ctx.loopStack ∧
      (emitListAssigns ctx name i es).returnStack = ctx.returnStack := by
  induction es with
  | nil => intro ctx name i; simp [emitListAssigns]
  | cons el rest ih =>
    intro ctx name i
    simp [emitListAssigns, (ih _ name (i + 1)).1, (ih _ name (i + 1)).2]

theorem emitMapAssigns_stacks (prs : List (String × Expr)) :
    ∀ (ctx : GenContext) (name : String),
      (emitMapAssigns ctx name prs).loopStack = ctx.loopStack ∧
      (emitMapAssigns ctx name prs).returnStack = ctx.returnStack := by
  induction prs with
  | nil => intro ctx name; simp [emitMapAssigns]
  | cons pr rest ih =>
    intro ctx name
    obtain ⟨k, v⟩ := pr
    simp [emitMapAssigns, (ih _ name).1, (ih _ name).2]

theorem emitIndexAssign_stacks (ctx : GenContext) (name : String) (l idx : Expr) :
    (emitIndexAssign ctx name l idx).loopStack = ctx.loopStack ∧
    (emitIndexAssign ctx name l idx).returnStack = ctx.returnStack := by
  cases l <;> cases idx <;> simp [emitIndexAssign]

theorem lowerSetStmt_stacks (ctx : GenContext) (name : String) (v : Expr) :
    (lowerSetStmt ctx name v).loopStack = ctx.loopStack ∧
    (lowerSetStmt ctx name v).returnStack = ctx.returnStack := by
  cases v <;>
    simp [lowerSetStmt, emitIndexAssign_stacks, emitListAssigns_stacks,
      emitMapAssigns_stacks] <;>
    split <;> simp

theorem lowerAssignStmt_stacks (ctx : GenContext) (name : String) (v : Expr) :
    (lowerAssignStmt ctx name v).loopStack = ctx.loopStack ∧
    (lowerAssignStmt ctx name v).returnStack = ctx.returnStack := by
  cases v <;>
    simp [lowerAssignStmt, emitIndexAssign_stacks, emitListAssigns_stacks,
      emitMapAssigns_stacks] <;>
    split <;> simp

theorem lowerComparisonCondition_stacks (ctx : GenContext) (l : Expr) (op : String)
    (r : Expr) (e : String) :
    (lowerComparisonCondition ctx l op r e).loopStack = ctx.loopStack ∧
    (lowerComparisonCondition ctx l op r e).returnStack = ctx.returnStack := by
  simp only [lowerComparisonCondition]
  split <;> split <;> simp

theorem lowerEchoStmt_stacks (ctx : GenContext) (v : Expr) :
    (lowerEchoStmt ctx v).loopStack = ctx.loopStack ∧
    (lowerEchoStmt ctx v).returnStack = ctx.returnStack := ⟨rfl, rfl⟩

theorem lowerRunStmt_stacks (ctx : GenContext) (c : Expr) :
    (lowerRunStmt ctx c).loopStack = ctx.loopStack ∧
    (lowerRunStmt ctx c).returnStack = ctx.returnStack := ⟨rfl, rfl⟩

theorem lowerCallStmt_stacks (ctx : GenContext) (name : String) (args : List Expr) :
    (lowerCallStmt ctx name args).loopStack = ctx.loopStack ∧
    (lowerCallStmt ctx name args).returnStack = ctx.returnStack := ⟨rfl, rfl⟩

theorem lowerReturnStmt_stacks (ctx : GenContext) (v : Expr) (ctx' : GenContext)
    (hok : lowerReturnStmt ctx v = .ok ctx') :
    ctx'.loopStack = ctx.loopStack ∧ ctx'.returnStack = ctx.returnStack := by
  cases v <;> simp only [lowerReturnStmt] at hok <;>
    (split at hok <;> first
      | exact Except.noConfusion hok
      | (injection hok with h; subst h; simp))

theorem lowerBreakStmt_stacks (ctx ctx' : GenContext)
    (hok : lowerBreakStmt ctx = .ok ctx') :
    ctx'.loopStack = ctx.loopStack ∧ ctx'.returnStack = ctx.returnStack := by
  simp only [lowerBreakStmt] at hok
  split at hok <;> first
    | exact Except.noConfusion hok
    | (injection hok with h; subst h; simp)

theorem lowerContinueStmt_stacks (ctx ctx' : GenContext)
    (hok : lowerContinueStmt ctx = .ok ctx') :
    ctx'.loopStack = ctx.loopStack ∧ ctx'.returnStack = ctx.returnStack := by
  simp only [lowerContinueStmt] at hok
  split at hok <;> first
    | exact Except.noConfusion hok
    | (injection hok with h; subst h; simp)

theorem ifTail_stacks {t e : List Stmt}
    (ht : ∀ ctx ctx', emitBlock ctx t = .ok ctx' →
      ctx'.loopStack = ctx.loopStack ∧ ctx'.returnStack = ctx.returnStack)
    (he : ∀ ctx ctx', emitBlock ctx e = .ok ctx' →
      ctx'.loopStack = ctx.loopStack ∧ ctx'.returnStack = ctx.returnStack)
    (ctx : GenContext) (header : String) (ctx' : GenContext)
    (hok : (match emitBlock ((ctx.emitLine header).pushIndent) t with
      | .error err => Except.error err
      | .ok ctx₂ =>
        if e.length > 0 then
          match emitBlock (((ctx₂.popIndent).emitLine ") else (").pushIndent) e with
          | .error err => Except.error err
          | .ok ctx₄ => Except.ok ((ctx₄.popIndent).emitLine ")")
        else Except.ok ((ctx₂.popIndent).emitLine ")")) = Except.ok ctx') :
    ctx'.loopStack = ctx.loopStack ∧ ctx'.returnStack = ctx.returnStack := by
  split at hok
  · exact Except.noConfusion hok
  · next ctx₂ hb =>
    have h₂ := ht _ _ hb
    split at hok
    · split at hok
      · exact Except.noConfusion hok
      · next ctx₄ hb₂ =>
        have h₄ := he _ _ hb₂
        injection hok with h
        subst h
        simp_all
    · injection hok with h
      subst h
      simp_all

theorem lowerIfGeneral_stacks {t e : List Stmt}
    (ht : ∀ ctx ctx', emitBlock ctx t = .ok ctx' →
      ctx'.loopStack = ctx.loopStack ∧ ctx'.returnStack = ctx.returnStack)
    (he : ∀ ctx ctx', emitBlock ctx e = .ok ctx' →
      ctx'.loopStack = ctx.loopStack ∧ ctx'.returnStack = ctx.returnStack) :
    ∀ (ctx : GenContext) (cond : Expr) (ctx' : GenContext),
      lowerIfGeneral ctx cond t e = .ok ctx' →
      ctx'.loopStack = ctx.loopStack ∧ ctx'.returnStack = ctx.returnStack := by
  intro ctx cond ctx' hok
  simp only [lowerIfGeneral] at hok
  exact ifTail_stacks ht he _ _ _ hok

theorem lowerIfComparison_stacks {t e : List Stmt}
    (ht : ∀ ctx ctx', emitBlock ctx t = .ok ctx' →
      ctx'.loopStack = ctx.loopStack ∧ ctx'.returnStack = ctx.returnStack)
    (he : ∀ ctx ctx', emitBlock ctx e = .ok ctx' →
      ctx'.loopStack = ctx.loopStack ∧ ctx'.returnStack = ctx.returnStack) :
    ∀ (ctx : GenContext) (l : Expr) (op : String) (r : Expr) (ctx' : GenContext),
      lowerIfComparison ctx l op r t e = .ok ctx' →
      ctx'.loopStack = ctx.loopStack ∧ ctx'.returnStack = ctx.returnStack := by
  intro ctx l op r ctx' hok
  simp only [lowerIfComparison] at hok
  have h := ifTail_stacks ht he _ _ _ hok
  refine ⟨h.1.trans ?_, h.2.trans ?_⟩ <;> (repeat' split) <;> simp

theorem lowerIfStmt_stacks {t e : List Stmt}
    (ht : ∀ ctx ctx', emitBlock ctx t = .ok ctx' →
      ctx'.loopStack = ctx.loopStack ∧ ctx'.returnStack = ctx.returnStack)
    (he : ∀ ctx ctx', emitBlock ctx e = .ok ctx' →
      ctx'.loopStack = ctx.loopStack ∧ ctx'.returnStack = ctx.returnStack) :
    ∀ (ctx : GenContext) (cond : Expr) (ctx' : GenContext),
      lowerIfStmt ctx cond t e = .ok ctx' →
      ctx'.loopStack = ctx.loopStack ∧ ctx'.returnStack = ctx.returnStack := by
  intro ctx cond ctx' hok
  cases cond with
  | binaryExpr l op r =>
    simp only [lowerIfStmt] at hok
    split at hok
    · exact lowerIfComparison_stacks ht he _ _ _ _ _ hok
    · split at hok
      · exact ifTail_stacks ht he _ _ _ hok
      · split at hok
        · exact ifTail_stacks ht he _ _ _ hok
        · rw [if_neg (by simp)] at hok
          exact lowerIfGeneral_stacks ht he _ _ _ hok
  | nilExpr => exact lowerIfGeneral_stacks ht he _ _ _ (by simpa [lowerIfStmt] using hok)
  | stringLit v => exact lowerIfGeneral_stacks ht he _ _ _ (by simpa [lowerIfStmt] using hok)
  | numberLit v => exact lowerIfGeneral_stacks ht he _ _ _ (by simpa [lowerIfStmt] using hok)
  | boolLit b => exact lowerIfGeneral_stacks ht he _ _ _ (by simpa [lowerIfStmt] using hok)
  | identExpr x => exact lowerIfGeneral_stacks ht he _ _ _ (by simpa [lowerIfStmt] using hok)
  | listLit els => exact lowerIfGeneral_stacks ht he _ _ _ (by simpa [lowerIfStmt] using hok)
  | mapLit prs => exact lowerIfGeneral_stacks ht he _ _ _ (by simpa [lowerIfStmt] using hok)
  | indexExpr a b => exact lowerIfGeneral_stacks ht he _ _ _ (by simpa [lowerIfStmt] using hok)
  | propertyExpr o f => exact lowerIfGeneral_stacks ht he _ _ _ (by simpa [lowerIfStmt] using hok)
  | unaryExpr o x => exact lowerIfGeneral_stacks ht he _ _ _ (by simpa [lowerIfStmt] using hok)
  | existsCond p => exact lowerIfGeneral_stacks ht he _ _ _ (by simpa [lowerIfStmt] using hok)

theorem lowerForStmt_stacks {body : List Stmt}
    (hb : ∀ ctx ctx', emitBlock ctx body = .ok ctx' →
      ctx'.loopStack = ctx.loopStack ∧ ctx'.returnStack = ctx.returnStack) :
    ∀ (ctx : GenContext) (v : String) (st en : Expr) (ctx' : GenContext),
      lowerForStmt ctx v st en body = .ok ctx' →
      ctx'.loopStack = ctx.loopStack ∧ ctx'.returnStack = ctx.returnStack := by
  intro ctx v st en ctx' hok
  simp only [lowerForStmt] at hok
  split at hok
  · exact Except.noConfusion hok
  · next ctx₁ hb₁ =>
    have h₁ := hb _ _ hb₁
    injection hok with h
    subst h
    simp_all

theorem lowerWhileStmt_stacks {body : List Stmt}
    (hb : ∀ ctx ctx', emitBlock ctx body = .ok ctx' →
      ctx'.loopStack = ctx.loopStack ∧ ctx'.returnStack = ctx.returnStack) :
    ∀ (ctx : GenContext) (cond : Expr) (ctx' : GenContext),
      lowerWhileStmt ctx cond body = .ok ctx' →
      ctx'.loopStack = ctx.loopStack ∧ ctx'.returnStack = ctx.returnStack := by
  intro ctx cond ctx' hok
  cases cond <;>
    simp only [lowerWhileStmt] at hok <;>
    (repeat' split at hok) <;>
    first
      | exact Except.noConfusion hok
      | (rename_i ctx₁ hb₁
         have h₁ := hb _ _ hb₁
         injection hok with h
         subst h
         (repeat' split at h₁) <;> simp_all [lowerComparisonCondition_stacks])

theorem emit_stacks :
    ∀ n : Nat,
      (∀ (s : Stmt) (ctx ctx' : GenContext), stmtSize s ≤ n →
        emitStmt ctx s = .ok ctx' →
        ctx'.loopStack = ctx.loopStack ∧ ctx'.returnStack = ctx.returnStack) ∧
      (∀ (l : List Stmt) (ctx ctx' : GenContext), stmtsSize l ≤ n →
        emitBlock ctx l = .ok ctx' →
        ctx'.loopStack = ctx.loopStack ∧ ctx'.returnStack = ctx.returnStack) := by
  intro n
  induction n using Nat.strong_induction_on with
  | _ n ih =>
    constructor
    · intro s ctx ctx' hsz hok
      cases s with
      | echoStmt v =>
        simp only [emitStmt] at hok
        injection hok with h; subst h
        exact lowerEchoStmt_stacks ctx v
      | runStmt c =>
        simp only [emitStmt] at hok
        injection hok with h; subst h
        exact lowerRunStmt_stacks ctx c
      | setStmt nm v =>
        simp only [emitStmt] at hok
        injection hok with h; subst h
        exact lowerSetStmt_stacks ctx nm v
      | assignStmt nm v =>
        simp only [emitStmt] at hok
        injection hok with h; subst h
        exact lowerAssignStmt_stacks ctx nm v
      | callStmt nm args =>
        simp only [emitStmt] at hok
        injection hok with h; subst h
        exact lowerCallStmt_stacks ctx nm args
      | returnStmt v =>
        simp only [emitStmt] at hok
        exact lowerReturnStmt_stacks ctx v ctx' hok
      | breakStmt =>
        simp only [emitStmt] at hok
        exact lowerBreakStmt_stacks ctx ctx' hok
      | continueStmt =>
        simp only [emitStmt] at hok
        exact lowerContinueStmt_stacks ctx ctx' hok
      | fnDecl nm ps b =>
        simp only [emitStmt] at hok
        exact Except.noConfusion hok
      | ifStmt cond t e =>
        simp only [emitStmt] at hok
        have hlt₁ : stmtsSize t < n := by
          simp only [stmtSize] at hsz; omega
        have hlt₂ : stmtsSize e < n := by
          simp only [stmtSize] at hsz; omega
        exact lowerIfStmt_stacks
          (fun c c' hb => (ih (stmtsSize t) hlt₁).2 t c c' le_rfl hb)
          (fun c c' hb => (ih (stmtsSize e) hlt₂).2 e c c' le_rfl hb)
          ctx cond ctx' hok
      | forStmt v st en b =>
        simp only [emitStmt] at hok
        have hlt : stmtsSize b < n := by
          simp only [stmtSize] at hsz; omega
        exact lowerForStmt_stacks
          (fun c c' hb => (ih (stmtsSize b) hlt).2 b c c' le_rfl hb)
          ctx v st en ctx' hok
      | whileStmt c b =>
        simp only [emitStmt] at hok
        have hlt : stmtsSize b < n := by
          simp only [stmtSize] at hsz; omega
        exact lowerWhileStmt_stacks
          (fun c₁ c' hb => (ih (stmtsSize b) hlt).2 b c₁ c' le_rfl hb)
          ctx c ctx' hok
    · intro l ctx ctx' hsz hok
      cases l with
      | nil =>
        simp only [emitBlock] at hok
        injection hok with h; subst h
        exact ⟨rfl, rfl⟩
      | cons s rest =>
        simp only [emitBlock] at hok
        split at hok
        · exact Except.noConfusion hok
        · next c hc =>
          have hlt₁ : stmtSize s < n := by
            simp only [stmtsSize] at hsz; omega
          have hlt₂ : stmtsSize rest < n := by
            simp only [stmtsSize] at hsz; omega
          have h₁ := (ih (stmtSize s) hlt₁).1 s ctx c le_rfl hc
          have h₂ := (ih (stmtsSize rest) hlt₂).2 rest c ctx' le_rfl hok
          exact ⟨h₂.1.trans h₁.1, h₂.2.trans h₁.2⟩

theorem emitStmt_stacks (s : Stmt) (ctx ctx' : GenContext)
    (h : emitStmt ctx s = .ok ctx') :
    ctx'.loopStack = ctx.loopStack ∧ ctx'.returnStack = ctx.returnStack :=
  (emit_stacks (stmtSize s)).1 s ctx ctx' le_rfl h

theorem emitBlock_stacks (l : List Stmt) (ctx ctx' : GenContext)
    (h : emitBlock ctx l = .ok ctx') :
    ctx'.loopStack = ctx.loopStack ∧ ctx'.returnStack = ctx.returnStack :=
  (emit_stacks (stmtsSize l)).2 l ctx ctx' le_rfl h

theorem retOutsideFnList_pos {e : List Stmt} (h : retOutsideFnList e = true) :
    0 < e.length := by
  cases e
  · simp [retOutsideFnList] at h
  · simp

theorem breakOutsideLoopList_pos {e : List Stmt} (h : breakOutsideLoopList e = true) :
    0 < e.length := by
  cases e
  · simp [breakOutsideLoopList] at h
  · simp

theorem lowerReturnStmt_not_ok (ctx : GenContext) (v : Expr)
    (hrs : ctx.returnStack = []) (c' : GenContext) :
    lowerReturnStmt ctx v ≠ .ok c' := by
  intro hok
  cases v <;> simp [lowerReturnStmt, GenContext.currentReturn, hrs] at hok

theorem lowerBreakStmt_not_ok (ctx : GenContext) (hls : ctx.loopStack = [])
    (c' : GenContext) : lowerBreakStmt ctx ≠ .ok c' := by
  intro hok
  simp [lowerBreakStmt, GenContext.currentLoop, hls] at hok

theorem lowerContinueStmt_not_ok (ctx : GenContext) (hls : ctx.loopStack = [])
    (c' : GenContext) : lowerContinueStmt ctx ≠ .ok c' := by
  intro hok
  simp [lowerContinueStmt, GenContext.currentLoop, hls] at hok

theorem ifTail_not_ok {t e : List Stmt} (P : GenContext → Prop)
    (hstab : ∀ c c', c'.loopStack = c.loopStack → c'.returnStack = c.returnStack →
      P c → P c')
    (flagT flagE : Bool) (hor : (flagT || flagE) = true)
    (hene : flagE = true → 0 < e.length)
    (hterr : flagT = true → ∀ c c₁, P c → emitBlock c t ≠ .ok c₁)
    (heerr : flagE = true → ∀ c c₁, P c → emitBlock c e ≠ .ok c₁)
    (ctx : GenContext) (hP : P ctx) (header : String) (c' : GenContext)
    (hok : (match emitBlock ((ctx.emitLine header).pushIndent) t with
      | .error err => Except.error err
      | .ok ctx₂ =>
        if e.length > 0 then
          match emitBlock (((ctx₂.popIndent).emitLine ") else (").pushIndent) e with
          | .error err => Except.error err
          | .ok ctx₄ => Except.ok ((ctx₄.popIndent).emitLine ")")
        else Except.ok ((ctx₂.popIndent).emitLine ")")) = Except.ok c') :
    False := by
  have hP₁ : P ((ctx.emitLine header).pushIndent) :=
    hstab _ _ (by simp) (by simp) hP
  split at hok
  · exact Except.noConfusion hok
  · next ctx₂ hb =>
    cases hfT : flagT with
    | true => exact hterr hfT _ _ hP₁ hb
    | false =>
      have hfE : flagE = true := by
        cases hfE : flagE
        · rw [hfT, hfE] at hor; exact Bool.noConfusion hor
        · rfl
      have hst := emitBlock_stacks t _ _ hb
      have hP₂ : P ctx₂ := hstab _ _ hst.1 hst.2 hP₁
      split at hok
      · split at hok
        · exact Except.noConfusion hok
        · next ctx₄ hb₂ =>
          exact heerr hfE _ _ (hstab _ _ (by simp) (by simp) hP₂) hb₂
      · next hlen => exact hlen (hene hfE)

theorem lowerIfGeneral_not_ok {t e : List Stmt} (P : GenContext → Prop)
    (hstab : ∀ c c', c'.loopStack = c.loopStack → c'.returnStack = c.returnStack →
      P c → P c')
    (flagT flagE : Bool) (hor : (flagT || flagE) = true)
    (hene : flagE = true → 0 < e.length)
    (hterr : flagT = true → ∀ c c₁, P c → emitBlock c t ≠ .ok c₁)
    (heerr : flagE = true → ∀ c c₁, P c → emitBlock c e ≠ .ok c₁)
    (ctx : GenContext) (hP : P ctx) (cond : Expr) (c' : GenContext) :
    lowerIfGeneral ctx cond t e ≠ .ok c' := by
  intro hok
  simp only [lowerIfGeneral] at hok
  exact ifTail_not_ok P hstab flagT flagE hor hene hterr heerr ctx hP _ c' hok

theorem lowerIfComparison_not_ok {t e : List Stmt} (P : GenContext → Prop)
    (hstab : ∀ c c', c'.loopStack = c.loopStack → c'.returnStack = c.returnStack →
      P c → P c')
    (flagT flagE : Bool) (hor : (flagT || flagE) = true)
    (hene : flagE = true → 0 < e.length)
    (hterr : flagT = true → ∀ c c₁, P c → emitBlock c t ≠ .ok c₁)
    (heerr : flagE = true → ∀ c c₁, P c → emitBlock c e ≠ .ok c₁)
    (ctx : GenContext) (hP : P ctx) (l : Expr) (op : String) (r : Expr)
    (c' : GenContext) :
    lowerIfComparison ctx l op r t e ≠ .ok c' := by
  intro hok
  simp only [lowerIfComparison] at hok
  refine ifTail_not_ok P hstab flagT flagE hor hene hterr heerr _ ?_ _ c' hok
  exact hstab _ _ (by (repeat' split) <;> simp) (by (repeat' split) <;> simp) hP

theorem lowerIfStmt_not_ok {t e : List Stmt} (P : GenContext → Prop)
    (hstab : ∀ c c', c'.loopStack = c.loopStack → c'.returnStack = c.returnStack →
      P c → P c')
    (flagT flagE : Bool) (hor : (flagT || flagE) = true)
    (hene : flagE = true → 0 < e.length)
    (hterr : flagT = true → ∀ c c₁, P c → emitBlock c t ≠ .ok c₁)
    (heerr : flagE = true → ∀ c c₁, P c → emitBlock c e ≠ .ok c₁)
    (ctx : GenContext) (hP : P ctx) (cond : Expr) (c' : GenContext) :
    lowerIfStmt ctx cond t e ≠ .ok c' := by
  intro hok
  cases cond <;> simp only [lowerIfStmt] at hok <;>
    first
      | exact lowerIfGeneral_not_ok P hstab flagT flagE hor hene hterr heerr
          _ hP _ _ hok
      | (split at hok
         · exact lowerIfComparison_not_ok P hstab flagT flagE hor hene hterr heerr
             _ hP _ _ _ _ hok
         · split at hok
           · exact ifTail_not_ok P hstab flagT flagE hor hene hterr heerr _ hP _ _ hok
           · split at hok
             · exact ifTail_not_ok P hstab flagT flagE hor hene hterr heerr _ hP _ _ hok
             · rw [if_neg (by simp)] at hok
               exact lowerIfGeneral_not_ok P hstab flagT flagE hor hene hterr heerr
                 _ hP _ _ hok)

theorem lowerForStmt_not_ok {body : List Stmt} (P : GenContext → Prop)
    (hstabR : ∀ c c', c'.returnStack = c.returnStack → P c → P c')
    (hberr : ∀ c c₁, P c → emitBlock c body ≠ .ok c₁)
    (ctx : GenContext) (hP : P ctx) (v : String) (st en : Expr) (c' : GenContext) :
    lowerForStmt ctx v st en body ≠ .ok c' := by
  intro hok
  simp only [lowerForStmt] at hok
  split at hok
  · exact Except.noConfusion hok
  · next ctx₁ hb₁ =>
    exact hberr _ _ (hstabR ctx _ (by simp) hP) hb₁

theorem lowerWhileStmt_not_ok {body : List Stmt} (P : GenContext → Prop)
    (hstabR : ∀ c c', c'.returnStack = c.returnStack → P c → P c')
    (hberr : ∀ c c₁, P c → emitBlock c body ≠ .ok c₁)
    (ctx : GenContext) (hP : P ctx) (cond : Expr) (c' : GenContext) :
    lowerWhileStmt ctx cond body ≠ .ok c' := by
  intro hok
  cases cond <;> simp only [lowerWhileStmt] at hok <;> (repeat' split at hok) <;>
    first
      | exact Except.noConfusion hok
      | (rename_i ctx₁ hb₁
         exact hberr _ _
           (hstabR ctx _ (by (repeat' split) <;> simp [lowerComparisonCondition_stacks]) hP)
           hb₁)

theorem emit_ret_not_ok :
    ∀ n : Nat,
      (∀ (s : Stmt) (ctx c' : GenContext), stmtSize s ≤ n →
        retOutsideFn s = true → ctx.returnStack = [] → emitStmt ctx s ≠ .ok c') ∧
      (∀ (l : List Stmt) (ctx c' : GenContext), stmtsSize l ≤ n →
        retOutsideFnList l = true → ctx.returnStack = [] → emitBlock ctx l ≠ .ok c') := by
  intro n
  induction n using Nat.strong_induction_on with
  | _ n ih =>
    constructor
    · intro s ctx c' hsz hflag hrs hok
      cases s with
      | returnStmt v =>
        simp only [emitStmt] at hok
        exact lowerReturnStmt_not_ok ctx v hrs c' hok
      | ifStmt cond t e =>
        simp only [emitStmt] at hok
        simp only [retOutsideFn] at hflag
        have hlt₁ : stmtsSize t < n := by simp only [stmtSize] at hsz; omega
        have hlt₂ : stmtsSize e < n := by simp only [stmtSize] at hsz; omega
        exact lowerIfStmt_not_ok (fun c => c.returnStack = [])
          (fun c c₁ _ h₂ hc => h₂.trans hc)
          (retOutsideFnList t) (retOutsideFnList e) hflag
          (fun hf => retOutsideFnList_pos hf)
          (fun hf c c₁ hc => (ih (stmtsSize t) hlt₁).2 t c c₁ le_rfl hf hc)
          (fun hf c c₁ hc => (ih (stmtsSize e) hlt₂).2 e c c₁ le_rfl hf hc)
          ctx hrs cond c' hok
      | forStmt v st en b =>
        simp only [emitStmt] at hok
        simp only [retOutsideFn] at hflag
        have hlt : stmtsSize b < n := by simp only [stmtSize] at hsz; omega
        exact lowerForStmt_not_ok (fun c => c.returnStack = [])
          (fun c c₁ h₂ hc => h₂.trans hc)
          (fun c c₁ hc => (ih (stmtsSize b) hlt).2 b c c₁ le_rfl hflag hc)
          ctx hrs v st en c' hok
      | whileStmt cd b =>
        simp only [emitStmt] at hok
        simp only [retOutsideFn] at hflag
        have hlt : stmtsSize b < n := by simp only [stmtSize] at hsz; omega
        exact lowerWhileStmt_not_ok (fun c => c.returnStack = [])
          (fun c c₁ h₂ hc => h₂.trans hc)
          (fun c c₁ hc => (ih (stmtsSize b) hlt).2 b c c₁ le_rfl hflag hc)
          ctx hrs cd c' hok
      | echoStmt v => simp [retOutsideFn] at hflag
      | runStmt c => simp [retOutsideFn] at hflag
      | setStmt nm v => simp [retOutsideFn] at hflag
      | assignStmt nm v => simp [retOutsideFn] at hflag
      | callStmt nm args => simp [retOutsideFn] at hflag
      | breakStmt => simp [retOutsideFn] at hflag
      | continueStmt => simp [retOutsideFn] at hflag
      | fnDecl nm ps b => simp [retOutsideFn] at hflag
    · intro l ctx c' hsz hflag hrs hok
      cases l with
      | nil => simp [retOutsideFnList] at hflag
      | cons s rest =>
        simp only [retOutsideFnList, Bool.or_eq_true] at hflag
        simp only [emitBlock] at hok
        split at hok
        · exact Except.noConfusion hok
        · next c hc =>
          have hlt₁ : stmtSize s < n := by simp only [stmtsSize] at hsz; omega
          have hlt₂ : stmtsSize rest < n := by simp only [stmtsSize] at hsz; omega
          cases hfs : retOutsideFn s with
          | true => exact (ih (stmtSize s) hlt₁).1 s ctx c le_rfl hfs hrs hc
          | false =>
            have hfr : retOutsideFnList rest = true := by
              rcases hflag with h | h
              · rw [hfs] at h; exact Bool.noConfusion h
              · exact h
            have hcs : c.returnStack = [] :=
              (emitStmt_stacks s ctx c hc).2.trans hrs
            exact (ih (stmtsSize rest) hlt₂).2 rest c c' le_rfl hfr hcs hok

theorem emit_break_not_ok :
    ∀ n : Nat,
      (∀ (s : Stmt) (ctx c' : GenContext), stmtSize s ≤ n →
        breakOutsideLoop s = true → ctx.loopStack = [] → emitStmt ctx s ≠ .ok c') ∧
      (∀ (l : List Stmt) (ctx c' : GenContext), stmtsSize l ≤ n →
        breakOutsideLoopList l = true → ctx.loopStack = [] → emitBlock ctx l ≠ .ok c') := by
  intro n
  induction n using Nat.strong_induction_on with
  | _ n ih =>
    constructor
    · intro s ctx c' hsz hflag hls hok
      cases s with
      | breakStmt =>
        simp only [emitStmt] at hok
        exact lowerBreakStmt_not_ok ctx hls c' hok
      | continueStmt =>
        simp only [emitStmt] at hok
        exact lowerContinueStmt_not_ok ctx hls c' hok
      | fnDecl nm ps b =>
        simp only [emitStmt] at hok
        exact Except.noConfusion hok
      | ifStmt cond t e =>
        simp only [emitStmt] at hok
        simp only [breakOutsideLoop] at hflag
        have hlt₁ : stmtsSize t < n := by simp only [stmtSize] at hsz; omega
        have hlt₂ : stmtsSize e < n := by simp only [stmtSize] at hsz; omega
        exact lowerIfStmt_not_ok (fun c => c.loopStack = [])
          (fun c c₁ h₁ _ hc => h₁.trans hc)
          (breakOutsideLoopList t) (breakOutsideLoopList e) hflag
          (fun hf => breakOutsideLoopList_pos hf)
          (fun hf c c₁ hc => (ih (stmtsSize t) hlt₁).2 t c c₁ le_rfl hf hc)
          (fun hf c c₁ hc => (ih (stmtsSize e) hlt₂).2 e c c₁ le_rfl hf hc)
          ctx hls cond c' hok
      | echoStmt v => simp [breakOutsideLoop] at hflag
      | runStmt c => simp [breakOutsideLoop] at hflag
      | setStmt nm v => simp [breakOutsideLoop] at hflag
      | assignStmt nm v => simp [breakOutsideLoop] at hflag
      | callStmt nm args => simp [breakOutsideLoop] at hflag
      | returnStmt v => simp [breakOutsideLoop] at hflag
      | forStmt v st en b => simp [breakOutsideLoop] at hflag
      | whileStmt cd b => simp [breakOutsideLoop] at hflag
    · intro l ctx c' hsz hflag hls hok
      cases l with
      | nil => simp [breakOutsideLoopList] at hflag
      | cons s rest =>
        simp only [breakOutsideLoopList, Bool.or_eq_true] at hflag
        simp only [emitBlock] at hok
        split at hok
        · exact Except.noConfusion hok
        · next c hc =>
          have hlt₁ : stmtSize s < n := by simp only [stmtsSize] at hsz; omega
          have hlt₂ : stmtsSize rest < n := by simp only [stmtsSize] at hsz; omega
          cases hfs : breakOutsideLoop s with
          | true => exact (ih (stmtSize s) hlt₁).1 s ctx c le_rfl hfs hls hc
          | false =>
            have hfr : breakOutsideLoopList rest = true := by
              rcases hflag with h | h
              · rw [hfs] at h; exact Bool.noConfusion h
              · exact h
            have hcs : c.loopStack = [] :=
              (emitStmt_stacks s ctx c hc).1.trans hls
            exact (ih (stmtsSize rest) hlt₂).2 rest c c' le_rfl hfr hcs hok

theorem emitTopLevels_stacks (l : List Stmt) :
    ∀ (ctx c : GenContext) (fns : List (String × List String × List Stmt)),
      emitTopLevels ctx l = .ok (c, fns) →
      c.loopStack = ctx.loopStack ∧ c.returnStack = ctx.returnStack := by
  induction l with
  | nil =>
    intro ctx c fns h
    simp only [emitTopLevels] at h
    injection h with h
    injection h with h1 h2
    subst h1
    exact ⟨rfl, rfl⟩
  | cons s rest ih =>
    intro ctx c fns h
    cases s <;> simp only [emitTopLevels] at h <;> split at h <;>
      first
        | exact Except.noConfusion h
        | (rename_i c₀ fns₀ hrest
           injection h with h
           injection h with h1 h2
           subst h1
           exact ih ctx _ _ hrest)
        | (rename_i c₀ hstep
           exact ⟨(ih c₀ c fns h).1.trans (emitStmt_stacks _ ctx c₀ hstep).1,
                  (ih c₀ c fns h).2.trans (emitStmt_stacks _ ctx c₀ hstep).2⟩)

theorem emitTopLevels_ret_not_ok (l : List Stmt) :
    ∀ (ctx : GenContext) (res : GenContext × List (String × List String × List Stmt)),
      retOutsideFnList l = true → ctx.returnStack = [] →
      emitTopLevels ctx l ≠ .ok res := by
  induction l with
  | nil => intro ctx res hflag _ _; simp [retOutsideFnList] at hflag
  | cons s rest ih =>
    intro ctx res hflag hrs hok
    simp only [retOutsideFnList, Bool.or_eq_true] at hflag
    cases s with
    | fnDecl n ps b =>
      simp only [emitTopLevels] at hok
      split at hok
      · exact Except.noConfusion hok
      · rename_i c₀ fns₀ hrest
        refine ih ctx (c₀, fns₀) ?_ hrs hrest
        rcases hflag with h | h
        · simp [retOutsideFn] at h
        · exact h
    | echoStmt v =>
      simp only [emitTopLevels] at hok
      split at hok
      · exact Except.noConfusion hok
      · rename_i c₀ hstep
        rcases hflag with h | h
        · exact (emit_ret_not_ok (stmtSize _)).1 _ ctx c₀ le_rfl h hrs hstep
        · exact ih c₀ res h ((emitStmt_stacks _ ctx c₀ hstep).2.trans hrs) hok
    | runStmt c =>
      simp only [emitTopLevels] at hok
      split at hok
      · exact Except.noConfusion hok
      · rename_i c₀ hstep
        rcases hflag with h | h
        · exact (emit_ret_not_ok (stmtSize _)).1 _ ctx c₀ le_rfl h hrs hstep
        · exact ih c₀ res h ((emitStmt_stacks _ ctx c₀ hstep).2.trans hrs) hok
    | setStmt nm v =>
      simp only [emitTopLevels] at hok
      split at hok
      · exact Except.noConfusion hok
      · rename_i c₀ hstep
        rcases hflag with h | h
        · exact (emit_ret_not_ok (stmtSize _)).1 _ ctx c₀ le_rfl h hrs hstep
        · exact ih c₀ res h ((emitStmt_stacks _ ctx c₀ hstep).2.trans hrs) hok
    | assignStmt nm v =>
      simp only [emitTopLevels] at hok
      split at hok
      · exact Except.noConfusion hok
      · rename_i c₀ hstep
        rcases hflag with h | h
        · exact (emit_ret_not_ok (stmtSize _)).1 _ ctx c₀ le_rfl h hrs hstep
        · exact ih c₀ res h ((emitStmt_stacks _ ctx c₀ hstep).2.trans hrs) hok
    | callStmt nm args =>
      simp only [emitTopLevels] at hok
      split at hok
      · exact Except.noConfusion hok
      · rename_i c₀ hstep
        rcases hflag with h | h
        · exact (emit_ret_not_ok (stmtSize _)).1 _ ctx c₀ le_rfl h hrs hstep
        · exact ih c₀ res h ((emitStmt_stacks _ ctx c₀ hstep).2.trans hrs) hok
    | returnStmt v =>
      simp only [emitTopLevels] at hok
      split at hok
      · exact Except.noConfusion hok
      · rename_i c₀ hstep
        rcases hflag with h | h
        · exact (emit_ret_not_ok (stmtSize _)).1 _ ctx c₀ le_rfl h hrs hstep
        · exact ih c₀ res h ((emitStmt_stacks _ ctx c₀ hstep).2.trans hrs) hok
    | breakStmt =>
      simp only [emitTopLevels] at hok
      split at hok
      · exact Except.noConfusion hok
      · rename_i c₀ hstep
        rcases hflag with h | h
        · exact (emit_ret_not_ok (stmtSize _)).1 _ ctx c₀ le_rfl h hrs hstep
        · exact ih c₀ res h ((emitStmt_stacks _ ctx c₀ hstep).2.trans hrs) hok
    | continueStmt =>
      simp only [emitTopLevels] at hok
      split at hok
      · exact Except.noConfusion hok
      · rename_i c₀ hstep
        rcases hflag with h | h
        · exact (emit_ret_not_ok (stmtSize _)).1 _ ctx c₀ le_rfl h hrs hstep
        · exact ih c₀ res h ((emitStmt_stacks _ ctx c₀ hstep).2.trans hrs) hok
    | ifStmt cond t e =>
      simp only [emitTopLevels] at hok
      split at hok
      · exact Except.noConfusion hok
      · rename_i c₀ hstep
        rcases hflag with h | h
        · exact (emit_ret_not_ok (stmtSize _)).1 _ ctx c₀ le_rfl h hrs hstep
        · exact ih c₀ res h ((emitStmt_stacks _ ctx c₀ hstep).2.trans hrs) hok
    | forStmt v st en b =>
      simp only [emitTopLevels] at hok
      split at hok
      · exact Except.noConfusion hok
      · rename_i c₀ hstep
        rcases hflag with h | h
        · exact (emit_ret_not_ok (stmtSize _)).1 _ ctx c₀ le_rfl h hrs hstep
        · exact ih c₀ res h ((emitStmt_stacks _ ctx c₀ hstep).2.trans hrs) hok
    | whileStmt cd b =>
      simp only [emitTopLevels] at hok
      split at hok
      · exact Except.noConfusion hok
      · rename_i c₀ hstep
        rcases hflag with h | h
        · exact (emit_ret_not_ok (stmtSize _)).1 _ ctx c₀ le_rfl h hrs hstep
        · exact ih c₀ res h ((emitStmt_stacks _ ctx c₀ hstep).2.trans hrs) hok

theorem emitTopLevels_break (l : List Stmt) :
    ∀ (ctx c : GenContext) (fns : List (String × List String × List Stmt)),
      breakOutsideLoopList l = true → ctx.loopStack = [] →
      emitTopLevels ctx l = .ok (c, fns) →
      ∃ x ∈ fns, breakOutsideLoopList x.2.2 = true := by
  induction l with
  | nil => intro ctx c fns hflag _ _; simp [breakOutsideLoopList] at hflag
  | cons s rest ih =>
    intro ctx c fns hflag hls hok
    simp only [breakOutsideLoopList, Bool.or_eq_true] at hflag
    cases s with
    | fnDecl n ps b =>
      simp only [emitTopLevels] at hok
      split at hok
      · exact Except.noConfusion hok
      · rename_i c₀ fns₀ hrest
        injection hok with h
        injection h with h1 h2
        subst h1
        subst h2
        cases hb : breakOutsideLoopList b with
        | true => exact ⟨(n, ps, b), List.mem_cons_self _ _, hb⟩
        | false =>
          have hfr : breakOutsideLoopList rest = true := by
            rcases hflag with h | h
            · simp only [breakOutsideLoop] at h
              rw [hb] at h
              exact Bool.noConfusion h
            · exact h
          obtain ⟨x, hx, hfx⟩ := ih ctx c₀ fns₀ hfr hls hrest
          exact ⟨x, List.mem_cons_of_mem _ hx, hfx⟩
    | echoStmt v =>
      simp only [emitTopLevels] at hok
      split at hok
      · exact Except.noConfusion hok
      · rename_i c₀ hstep
        rcases hflag with h | h
        · exact ((emit_break_not_ok (stmtSize _)).1 _ ctx c₀ le_rfl h hls hstep).elim
        · exact ih c₀ c fns h ((emitStmt_stacks _ ctx c₀ hstep).1.trans hls) hok
    | runStmt cc =>
      simp only [emitTopLevels] at hok
      split at hok
      · exact Except.noConfusion hok
      · rename_i c₀ hstep
        rcases hflag with h | h
        · exact ((emit_break_not_ok (stmtSize _)).1 _ ctx c₀ le_rfl h hls hstep).elim
        · exact ih c₀ c fns h ((emitStmt_stacks _ ctx c₀ hstep).1.trans hls) hok
    | setStmt nm v =>
      simp only [emitTopLevels] at hok
      split at hok
      · exact Except.noConfusion hok
      · rename_i c₀ hstep
        rcases hflag with h | h
        · exact ((emit_break_not_ok (stmtSize _)).1 _ ctx c₀ le_rfl h hls hstep).elim
        · exact ih c₀ c fns h ((emitStmt_stacks _ ctx c₀ hstep).1.trans hls) hok
    | assignStmt nm v =>
      simp only [emitTopLevels] at hok
      split at hok
      · exact Except.noConfusion hok
      · rename_i c₀ hstep
        rcases hflag with h | h
        · exact ((emit_break_not_ok (stmtSize _)).1 _ ctx c₀ le_rfl h hls hstep).elim
        · exact ih c₀ c fns h ((emitStmt_stacks _ ctx c₀ hstep).1.trans hls) hok
    | callStmt nm args =>
      simp only [emitTopLevels] at hok
      split at hok
      · exact Except.noConfusion hok
      · rename_i c₀ hstep
        rcases hflag with h | h
        · exact ((emit_break_not_ok (stmtSize _)).1 _ ctx c₀ le_rfl h hls hstep).elim
        · exact ih c₀ c fns h ((emitStmt_stacks _ ctx c₀ hstep).1.trans hls) hok
    | returnStmt v =>
      simp only [emitTopLevels] at hok
      split at hok
      · exact Except.noConfusion hok
      · rename_i c₀ hstep
        rcases hflag with h | h
        · exact ((emit_break_not_ok (stmtSize _)).1 _ ctx c₀ le_rfl h hls hstep).elim
        · exact ih c₀ c fns h ((emitStmt_stacks _ ctx c₀ hstep).1.trans hls) hok
    | breakStmt =>
      simp only [emitTopLevels] at hok
      split at hok
      · exact Except.noConfusion hok
      · rename_i c₀ hstep
        rcases hflag with h | h
        · exact ((emit_break_not_ok (stmtSize _)).1 _ ctx c₀ le_rfl h hls hstep).elim
        · exact ih c₀ c fns h ((emitStmt_stacks _ ctx c₀ hstep).1.trans hls) hok
    | continueStmt =>
      simp only [emitTopLevels] at hok
      split at hok
      · exact Except.noConfusion hok
      · rename_i c₀ hstep
        rcases hflag with h | h
        · exact ((emit_break_not_ok (stmtSize _)).1 _ ctx c₀ le_rfl h hls hstep).elim
        · exact ih c₀ c fns h ((emitStmt_stacks _ ctx c₀ hstep).1.trans hls) hok
    | ifStmt cond t e =>
      simp only [emitTopLevels] at hok
      split at hok
      · exact Except.noConfusion hok
      · rename_i c₀ hstep
        rcases hflag with h | h
        · exact ((emit_break_not_ok (stmtSize _)).1 _ ctx c₀ le_rfl h hls hstep).elim
        · exact ih c₀ c fns h ((emitStmt_stacks _ ctx c₀ hstep).1.trans hls) hok
    | forStmt v st en b =>
      simp only [emitTopLevels] at hok
      split at hok
      · exact Except.noConfusion hok
      · rename_i c₀ hstep
        rcases hflag with h | h
        · exact ((emit_break_not_ok (stmtSize _)).1 _ ctx c₀ le_rfl h hls hstep).elim
        · exact ih c₀ c fns h ((emitStmt_stacks _ ctx c₀ hstep).1.trans hls) hok
    | whileStmt cd b =>
      simp only [emitTopLevels] at hok
      split at hok
      · exact Except.noConfusion hok
      · rename_i c₀ hstep
        rcases hflag with h | h
        · exact ((emit_break_not_ok (stmtSize _)).1 _ ctx c₀ le_rfl h hls hstep).elim
        · exact ih c₀ c fns h ((emitStmt_stacks _ ctx c₀ hstep).1.trans hls) hok

theorem lowerFnDecl_stacks (ctx : GenContext) (n : String) (ps : List String)
    (b : List Stmt) (c' : GenContext) (hok : lowerFnDecl ctx n ps b = .ok c') :
    c'.loopStack = ctx.loopStack ∧ c'.returnStack = ctx.returnStack := by
  simp only [lowerFnDecl] at hok
  split at hok
  · exact Except.noConfusion hok
  · next ctx₁ hb =>
    have h := emitBlock_stacks b _ _ hb
    injection hok with h'
    subst h'
    constructor <;>
      simp [h.1, h.2, emitParamSets_stacks, List.dropLast_concat]

theorem lowerFnDecl_break_not_ok (ctx : GenContext) (n : String) (ps : List String)
    (b : List Stmt) (c' : GenContext) (hflag : breakOutsideLoopList b = true)
    (hls : ctx.loopStack = []) : lowerFnDecl ctx n ps b ≠ .ok c' := by
  intro hok
  simp only [lowerFnDecl] at hok
  split at hok
  · exact Except.noConfusion hok
  · next ctx₁ hb =>
    exact (emit_break_not_ok (stmtsSize b)).2 b _ _ le_rfl hflag
      (by simp [emitParamSets_stacks, hls]) hb

theorem emitFunctions_break_not_ok (fns : List (String × List String × List Stmt)) :
    ∀ (ctx c' : GenContext), ctx.loopStack = [] →
      (∃ x ∈ fns, breakOutsideLoopList x.2.2 = true) →
      emitFunctions ctx fns ≠ .ok c' := by
  induction fns with
  | nil => intro ctx c' _ hex _; simp at hex
  | cons f rest ih =>
    intro ctx c' hls hex hok
    obtain ⟨n, ps, b⟩ := f
    simp only [emitFunctions] at hok
    split at hok
    · exact Except.noConfusion hok
    · next c₀ hf =>
      obtain ⟨x, hx, hfx⟩ := hex
      rcases List.mem_cons.mp hx with hx | hx
      · subst hx
        exact lowerFnDecl_break_not_ok ctx n ps b c₀ hfx hls hf
      · exact ih c₀ c' ((lowerFnDecl_stacks ctx n ps b c₀ hf).1.trans hls)
          ⟨x, hx, hfx⟩ hok

/-- Claim C10: for every program holding a Return outside every function
body, or a Break or Continue outside every loop body, `Generate` returns
the empty output string together with an error: the misplaced statement
is only caught at generation time, through the empty return/loop stacks
of the generator context, and no truncated Batch output is produced. -/
theorem c10_misplaced_generate_errors (p : Program) (h : misplaced p = true) :
    (Generate p).1 = "" ∧ (Generate p).2.isSome = true := by
  simp only [misplaced, Bool.or_eq_true] at h
  cases hTL : emitTopLevels
      ((NewContext.emitLine "@echo off").emitLine "setlocal EnableDelayedExpansion")
      p.statements with
  | error e => simp [Generate, hTL]
  | ok res =>
    obtain ⟨c, fns⟩ := res
    rcases h with hret | hbrk
    · exact (emitTopLevels_ret_not_ok p.statements _ (c, fns) hret rfl hTL).elim
    · have hker := emitTopLevels_break p.statements _ c fns hbrk rfl hTL
      have hcl : c.loopStack = [] :=
        (emitTopLevels_stacks p.statements _ c fns hTL).1
      cases hF : emitFunctions c fns with
      | error e => simp [Generate, hTL, hF]
      | ok c₂ => exact (emitFunctions_break_not_ok fns c c₂ hcl hker hF).elim

theorem c10_witness :
    misplaced ⟨[Stmt.returnStmt Expr.nilExpr]⟩ = true ∧
    (Generate ⟨[Stmt.returnStmt Expr.nilExpr]⟩).1 = "" ∧
    (Generate ⟨[Stmt.returnStmt Expr.nilExpr]⟩).2.isSome = true :=
  ⟨by decide, c10_misplaced_generate_errors ⟨[Stmt.returnStmt Expr.nilExpr]⟩ (by decide)⟩
